import Mathlib

/-! The DI device of the IPC HLE layer: command queue and vectorized requests.

A shallow embedding of `Source/Core/Core/IPC_HLE/WII_IPC_HLE_Device_DI.cpp`.

* The device state is the deque `m_commands_to_execute`, guest memory, and the
  ordered list of calls the device has made to its collaborators
  (`DVDInterface`, `WII_IPC_HLE_Interface`, the message handler).
* Every declaration the translation unit takes from a header that is not among
  the sources (request layout, opcode and return constants, the assertion
  switch and the answer to its prompt, the disc image) is a field of
  `Platform`; theorems hold for every platform.
-/

namespace DI

/-! ## Guest memory -/

/-- Guest memory: one cell per byte address. -/
abbrev Mem := Nat → Nat

/-- Truncation of an address computation to `u32`. -/
def u32 (n : Nat) : Nat := n % 2 ^ 32

/-- Modelled from the spec: `Memory::Read_U32` of Core/HW/Memmap (not among the
sources), the guest memory accessor `ReadWord(addr) -> u32`: the big-endian word
made of the four bytes starting at `address`. -/
def Read_U32 (m : Mem) (address : Nat) : Nat :=
  (m address % 256) * 2 ^ 24 + (m (address + 1) % 256) * 2 ^ 16
    + (m (address + 2) % 256) * 2 ^ 8 + m (address + 3) % 256

/-- Modelled from the spec: `Memory::Write_U32(value, address)` of Core/HW/Memmap
(not among the sources): stores the four big-endian bytes of `value`. -/
def Write_U32 (m : Mem) (value address : Nat) : Mem :=
  fun a =>
    if a = address then value / 2 ^ 24 % 256
    else if a = address + 1 then value / 2 ^ 16 % 256
    else if a = address + 2 then value / 2 ^ 8 % 256
    else if a = address + 3 then value % 256
    else m a

/-- Modelled from the spec: `Memory::Memset(address, value, size)` of
Core/HW/Memmap (not among the sources), the accessor `Zero(addr, len)` when
`value` is 0: every byte of `[address, address + size)` becomes `value`. -/
def Memset (m : Mem) (address value size : Nat) : Mem :=
  fun a => if address ≤ a ∧ a < address + size then value else m a

/-- Modelled from the spec: `Memory::CopyToEmu(address, data, size)` of
Core/HW/Memmap (not among the sources), the accessor `CopyIn(addr, buffer)`:
the bytes of `data` are stored from `address` on. -/
def CopyToEmu (m : Mem) (address : Nat) (data : List Nat) : Mem :=
  fun a => if address ≤ a ∧ a < address + data.length then data.getD (a - address) 0 else m a

/-! ## Declarations taken from headers outside the sources -/

/-- The interrupt cause `DVDInterface::DIInterruptType`, an enumeration over
`int`, by its numeric value. -/
abbrev DIInterruptType := Int

/-- The conversion `static_cast<u32>` of an `s32`. -/
def toU32 (v : Int) : Nat := (v % 2 ^ 32).toNat

/-- Modelled from the spec: what the translation unit takes from headers that
are not among the sources. The request descriptor is resolved from its guest
address by reading fields at fixed offsets; `return_value` is the offset of the
result field written by `SetReturnValue`. -/
structure Platform where
  /-- Offset of the result field of a request descriptor. -/
  return_value : Nat
  /-- Offset of the field `buffer_in` of an ioctl descriptor. -/
  buffer_in : Nat
  /-- Offset of the field `buffer_out` of an ioctl descriptor. -/
  buffer_out : Nat
  /-- Offset of the field `buffer_out_size` of an ioctl descriptor. -/
  buffer_out_size : Nat
  /-- The opcode `DVDInterface::DVDLowOpenPartition`. -/
  DVDLowOpenPartition : Nat
  /-- The return code `IPC_SUCCESS`. -/
  IPC_SUCCESS : Int
  /-- Whether `_dbg_assert_msg_` evaluates its condition (debug builds). -/
  debug : Bool
  /-- The answer given to the yes/no prompt that a failed `_dbg_assert_msg_`
  raises with this message: `true` to go on, `false` to stop. -/
  PanicYesNo : String → Bool
  /-- The blob `DVDInterface::GetVolume().GetTMD()` of the partition selected by
  the preceding `ChangePartition` call. -/
  GetTMD : Nat → List Nat
  /-- The result of `WII_IPC_HLE_Interface::ES_DIVerify` on a blob. -/
  ES_DIVerify : List Nat → Bool

/-- The request `IOSIOCtlRequest`, with the fields the device reads. -/
structure IOSIOCtlRequest where
  address : Nat
  buffer_in : Nat
  buffer_out : Nat
  buffer_out_size : Nat
deriving DecidableEq, Repr

/-- Modelled from the spec: the constructor `IOSIOCtlRequest{address}` of
WII_IPC_HLE_Device.h (not among the sources), which resolves a guest address
back into a full request object. -/
def IOSIOCtlRequest.ofAddress (P : Platform) (m : Mem) (address : Nat) : IOSIOCtlRequest :=
  { address := address
    buffer_in := Read_U32 m (u32 (address + P.buffer_in))
    buffer_out := Read_U32 m (u32 (address + P.buffer_out))
    buffer_out_size := Read_U32 m (u32 (address + P.buffer_out_size)) }

/-- Guest address of the result field of the request at `address`. -/
def returnValueAddress (P : Platform) (address : Nat) : Nat :=
  u32 (address + P.return_value)

/-- Modelled from the spec: `IOSRequest::SetReturnValue` of WII_IPC_HLE_Device.h
(not among the sources): writes the encoded numeric value into the result field
of the request in guest memory. -/
def SetReturnValue (P : Platform) (m : Mem) (address : Nat) (new_return_value : Int) : Mem :=
  Write_U32 m (toU32 new_return_value) (returnValueAddress P address)

/-- The result `IPCCommandResult`, by the getter that produced it. -/
inductive IPCCommandResult where
  | NoReply
  | DefaultReply
deriving DecidableEq, Repr

/-- The getter `GetNoReply()`. -/
def GetNoReply : IPCCommandResult := IPCCommandResult.NoReply

/-- The getter `GetDefaultReply()`. -/
def GetDefaultReply : IPCCommandResult := IPCCommandResult.DefaultReply

/-- A call made by the device to a collaborator. `EnqueueReply` records the
request address together with the content of its result field at the time of
the call, which is what the IPC layer delivers to the guest. -/
inductive Event where
  | ExecuteCommand (command_0 command_1 command_2 output_address output_length : Nat)
      (reply_to_ios : Bool)
  | EnqueueReply (address : Nat) (return_value : Nat)
  | PanicAlert (message : String)
  | dbg_assert_msg (message : String)
  | ChangePartition (offset : Nat)
  | ES_DIVerify (tmd : List Nat) (result : Bool)
  | DumpUnknown
deriving DecidableEq, Repr

/-! ## Device state and the timed path -/

/-- Device state: the queue of pending request addresses, guest memory, and the
calls made so far, oldest first. -/
structure State where
  m_commands_to_execute : List Nat
  memory : Mem
  trace : List Event

/-- The device as created: empty queue, no call made yet. -/
def State.init (memory : Mem) : State :=
  { m_commands_to_execute := [], memory := memory, trace := [] }

/-- The call `DVDInterface::ExecuteCommand` built by `StartIOCtl` for a request. -/
def executeCommandFor (m : Mem) (request : IOSIOCtlRequest) : Event :=
  let command_0 := Read_U32 m request.buffer_in
  let command_1 := Read_U32 m (u32 (request.buffer_in + 4))
  let command_2 := Read_U32 m (u32 (request.buffer_in + 8))
  Event.ExecuteCommand command_0 command_1 command_2 request.buffer_out
    request.buffer_out_size true

/-- `CWII_IPC_HLE_Device_di::StartIOCtl`. -/
def StartIOCtl (s : State) (request : IOSIOCtlRequest) : State :=
  { s with trace := s.trace ++ [executeCommandFor s.memory request] }

/-- `CWII_IPC_HLE_Device_di::IOCtl`. -/
def IOCtl (s : State) (request : IOSIOCtlRequest) : State × IPCCommandResult :=
  let ready_to_execute := s.m_commands_to_execute.isEmpty
  let s1 := { s with m_commands_to_execute := s.m_commands_to_execute ++ [request.address] }
  let s2 := if ready_to_execute then StartIOCtl s1 request else s1
  (s2, GetNoReply)

/-- The text of the diagnostic raised by `FinishIOCtl` on an empty queue. -/
def noCommandMessage : String := "WII_IPC_HLE_Device_DI: There is no command to execute!"

/-- `CWII_IPC_HLE_Device_di::FinishIOCtl`. -/
def FinishIOCtl (P : Platform) (s : State) (interrupt_type : DIInterruptType) : State :=
  match s.m_commands_to_execute with
  | [] => { s with trace := s.trace ++ [Event.PanicAlert noCommandMessage] }
  | command_address :: rest =>
    let request := IOSIOCtlRequest.ofAddress P s.memory command_address
    let memory := SetReturnValue P s.memory request.address interrupt_type
    let s1 : State :=
      { m_commands_to_execute := rest
        memory := memory
        trace := s.trace ++
          [Event.EnqueueReply request.address
            (Read_U32 memory (returnValueAddress P request.address))] }
    match s1.m_commands_to_execute with
    | [] => s1
    | front :: _ => StartIOCtl s1 (IOSIOCtlRequest.ofAddress P s1.memory front)

/-! ## The vectorized path -/

/-- One buffer descriptor `IOVector` of a vectorized request. -/
structure IOVector where
  address : Nat
  size : Nat
deriving DecidableEq, Repr

/-- The request `IOSIOCtlVRequest`, with the fields the device reads. -/
structure IOSIOCtlVRequest where
  address : Nat
  request : Nat
  in_vectors : List IOVector
  io_vectors : List IOVector
deriving DecidableEq, Repr

/-- The loop `for (const auto& vector : request.io_vectors) Memset(...)`. -/
def zeroVectors (m : Mem) (io_vectors : List IOVector) : Mem :=
  io_vectors.foldl (fun acc vector => Memset acc vector.address 0 vector.size) m

/-- Modelled from the spec: the macro `_dbg_assert_msg_` of Common/Assert.h
(not among the sources) on the condition `in_vectors[i].address == 0`, by the
calls it adds. It is a debug-only assertion: the condition is evaluated in debug
builds only. A failed assertion is reported through a yes/no prompt; handling
goes on when the prompt is answered yes, and otherwise the macro calls
`Crash()` and handling has no result. Indexing past the end of the vector has
no result either. -/
def dbgAssertUnset (P : Platform) (in_vectors : List IOVector) (i : Nat) (message : String) :
    Option (List Event) :=
  if P.debug then
    match in_vectors[i]? with
    | none => none
    | some vector =>
      if vector.address = 0 then some []
      else if P.PanicYesNo message then some [Event.dbg_assert_msg message]
      else none
  else some []

/-- The sector field `Memory::Read_U32(address + 4)` of the first input buffer. -/
def partitionWord (m : Mem) (address : Nat) : Nat :=
  Read_U32 m (u32 (address + 4))

/-- The byte offset `((u64)Memory::Read_U32(address + 4) << 2)`. -/
def partitionOffset (m : Mem) (address : Nat) : Nat :=
  (partitionWord m address <<< 2) % 2 ^ 64

/-- The case `DVDInterface::DVDLowOpenPartition` of the switch in `IOCtlV`,
up to and including `return_value = 1`. An out-of-bounds vector index has no
result, and neither has a failed assertion that stops handling. -/
def openPartition (P : Platform) (s : State) (request : IOSIOCtlVRequest) :
    Option (State × Int) := do
  let e1 ← dbgAssertUnset P request.in_vectors 1 "DVDLowOpenPartition with ticket"
  let e2 ← dbgAssertUnset P request.in_vectors 2 "DVDLowOpenPartition with cert chain"
  let in0 ← request.in_vectors[0]?
  let partition_offset := partitionOffset s.memory in0.address
  let tmd_buffer := P.GetTMD partition_offset
  let io0 ← request.io_vectors[0]?
  let memory := CopyToEmu s.memory io0.address tmd_buffer
  pure ({ s with
          memory := memory
          trace := s.trace ++ e1 ++ e2 ++
            [Event.ChangePartition partition_offset,
             Event.ES_DIVerify tmd_buffer (P.ES_DIVerify tmd_buffer)] }, 1)

/-- `CWII_IPC_HLE_Device_di::IOCtlV`. -/
def IOCtlV (P : Platform) (s : State) (request : IOSIOCtlVRequest) :
    Option (State × IPCCommandResult) := do
  let s1 : State := { s with memory := zeroVectors s.memory request.io_vectors }
  let (s2, return_value) ←
    if request.request = P.DVDLowOpenPartition then openPartition P s1 request
    else some ({ s1 with trace := s1.trace ++ [Event.DumpUnknown] }, P.IPC_SUCCESS)
  let s3 : State := { s2 with memory := SetReturnValue P s2.memory request.address return_value }
  pure (s3, GetDefaultReply)

/-! ## Sequences of calls and what is observed of them -/

/-- One thing that happens to the device: a submission, a completion upcall, or
a change of guest memory made between two calls by the guest or by the
controller executor. -/
inductive Call where
  | IOCtl (request : IOSIOCtlRequest)
  | FinishIOCtl (interrupt_type : DIInterruptType)
  | Guest (memory : Mem)

/-- Effect of one call on the device state. -/
def step (P : Platform) (s : State) : Call → State
  | Call.IOCtl request => (IOCtl s request).1
  | Call.FinishIOCtl interrupt_type => FinishIOCtl P s interrupt_type
  | Call.Guest memory => { s with memory := memory }

/-- Effect of a sequence of calls, first call first. -/
def run (P : Platform) (s : State) (calls : List Call) : State :=
  calls.foldl (step P) s

/-- Request addresses submitted through `IOCtl`, in order. -/
def submitted : List Call → List Nat
  | [] => []
  | Call.IOCtl request :: calls => request.address :: submitted calls
  | _ :: calls => submitted calls

/-- Outcomes of the `FinishIOCtl` calls of a sequence that found the queue
non-empty, in order. -/
def completions (P : Platform) (s : State) : List Call → List DIInterruptType
  | [] => []
  | Call.FinishIOCtl interrupt_type :: calls =>
    if s.m_commands_to_execute.isEmpty then
      completions P (step P s (Call.FinishIOCtl interrupt_type)) calls
    else interrupt_type :: completions P (step P s (Call.FinishIOCtl interrupt_type)) calls
  | call :: calls => completions P (step P s call) calls

/-- Request addresses handed to `EnqueueReply`, in order. -/
def repliedAddresses : List Event → List Nat
  | [] => []
  | Event.EnqueueReply address _ :: events => address :: repliedAddresses events
  | _ :: events => repliedAddresses events

/-- Return values carried by the replies handed to `EnqueueReply`, in order. -/
def repliedValues : List Event → List Nat
  | [] => []
  | Event.EnqueueReply _ return_value :: events => return_value :: repliedValues events
  | _ :: events => repliedValues events

/-- The `ExecuteCommand` calls of a trace, in order. -/
def executeCommands : List Event → List Event
  | [] => []
  | Event.ExecuteCommand c0 c1 c2 out len reply :: events =>
    Event.ExecuteCommand c0 c1 c2 out len reply :: executeCommands events
  | _ :: events => executeCommands events

/-- The diagnostics raised through `PanicAlert`, in order. -/
def panicAlerts : List Event → List String
  | [] => []
  | Event.PanicAlert message :: events => message :: panicAlerts events
  | _ :: events => panicAlerts events

/-- The offsets passed to `ChangePartition`, in order. -/
def changePartitions : List Event → List Nat
  | [] => []
  | Event.ChangePartition offset :: events => offset :: changePartitions events
  | _ :: events => changePartitions events

/-- The blobs passed to `ES_DIVerify`, in order. -/
def verifiedBlobs : List Event → List (List Nat)
  | [] => []
  | Event.ES_DIVerify tmd _ :: events => tmd :: verifiedBlobs events
  | _ :: events => verifiedBlobs events

/-- Whether address `a` lies in the range of one of the descriptors. -/
def inVectors (io_vectors : List IOVector) (a : Nat) : Prop :=
  ∃ vector ∈ io_vectors, vector.address ≤ a ∧ a < vector.address + vector.size

/-- The number of executions started exceeds the number of replies by one
exactly when the queue is non-empty. -/
def oneActive (s : State) : Prop :=
  (executeCommands s.trace).length
    = (repliedAddresses s.trace).length + (if s.m_commands_to_execute = [] then 0 else 1)

instance (io_vectors : List IOVector) (a : Nat) : Decidable (inVectors io_vectors a) := by
  unfold inVectors
  infer_instance

/-- A platform with the layout and constants of the emulator, for evaluation:
the result field at offset 4, `buffer_in`, `buffer_out`, `buffer_out_size` at
0x10, 0x18, 0x1c, opcode 0x8b, success code 0. -/
def examplePlatform : Platform :=
  { return_value := 4
    buffer_in := 0x10
    buffer_out := 0x18
    buffer_out_size := 0x1c
    DVDLowOpenPartition := 0x8b
    IPC_SUCCESS := 0
    debug := true
    PanicYesNo := fun _ => true
    GetTMD := fun offset => [offset % 256, 0xAB, 0xCD]
    ES_DIVerify := fun _ => false }

/-- The platform `examplePlatform` with every assertion prompt answered no. -/
def strictPlatform : Platform :=
  { examplePlatform with PanicYesNo := fun _ => false }

/-- Guest memory for evaluation: every byte is 0xFF except the word 4 stored
at address 0x304. -/
def exampleMemory : Mem := Write_U32 (fun _ => 0xFF) 4 0x304

/-- A vectorized request with an unknown opcode and two output buffers of
sizes 8 and 16. -/
def unknownRequest : IOSIOCtlVRequest :=
  { address := 0x1000
    request := 0x12
    in_vectors := []
    io_vectors := [{ address := 0x100, size := 8 }, { address := 0x200, size := 16 }] }

/-- An open-partition request whose first input buffer is at 0x300, with both
optional buffers unset and one output buffer. -/
def openRequest : IOSIOCtlVRequest :=
  { address := 0x1000
    request := 0x8b
    in_vectors := [{ address := 0x300, size := 8 }, { address := 0, size := 0 },
      { address := 0, size := 0 }]
    io_vectors := [{ address := 0x400, size := 0x20 }] }

/-- Whether address `a` is one of the four bytes of the result field of the
request at `address`. -/
def inResultField (P : Platform) (address a : Nat) : Prop :=
  returnValueAddress P address ≤ a ∧ a < returnValueAddress P address + 4

instance (P : Platform) (address a : Nat) : Decidable (inResultField P address a) := by
  unfold inResultField
  infer_instance

/-- An open-partition request whose own result field, at 0x400, is the start
of its first output buffer. -/
def aliasRequest : IOSIOCtlVRequest :=
  { address := 0x3FC
    request := 0x8b
    in_vectors := [{ address := 0x300, size := 8 }, { address := 0, size := 0 },
      { address := 0, size := 0 }]
    io_vectors := [{ address := 0x400, size := 0x20 }] }

/-- A trace without the reports of failed debug assertions. -/
def withoutAsserts : List Event → List Event
  | [] => []
  | Event.dbg_assert_msg _ :: events => withoutAsserts events
  | event :: events => event :: withoutAsserts events

/-- Every vector access made while handling the request is in bounds: on the
open-partition path `in_vectors[0]` and `io_vectors[0]` exist, and so do
`in_vectors[1]` and `in_vectors[2]` where assertions are evaluated; no other
path indexes a vector. -/
def vectorsInBounds (P : Platform) (request : IOSIOCtlVRequest) : Prop :=
  request.request = P.DVDLowOpenPartition →
    0 < request.in_vectors.length ∧ (P.debug = true → 2 < request.in_vectors.length) ∧
    0 < request.io_vectors.length

instance (P : Platform) (request : IOSIOCtlVRequest) : Decidable (vectorsInBounds P request) := by
  unfold vectorsInBounds
  infer_instance

/-- The open-partition request of `openRequest` with the ticket and cert chain
buffers set. -/
def ticketRequest : IOSIOCtlVRequest :=
  { address := 0x1000
    request := 0x8b
    in_vectors := [{ address := 0x300, size := 8 }, { address := 0x700, size := 0x2a4 },
      { address := 0x800, size := 0x40 }]
    io_vectors := [{ address := 0x400, size := 0x20 }] }

/-- An open-partition request whose first output buffer has two bytes, fewer
than the three bytes of the blob of `examplePlatform`. -/
def overflowRequest : IOSIOCtlVRequest :=
  { address := 0x1000
    request := 0x8b
    in_vectors := [{ address := 0x300, size := 8 }, { address := 0, size := 0 },
      { address := 0, size := 0 }]
    io_vectors := [{ address := 0x400, size := 2 }] }

/-! ## State persistence -/

/-- Modelled from the spec: the direction of the persistence collaborator
`PointerWrap` of Common/ChunkFile.h (not among the sources): it either restores
or serializes. -/
inductive PointerWrapMode where
  | MODE_READ
  | MODE_WRITE
deriving DecidableEq, Repr

/-- Modelled from the spec: the persistence collaborator `PointerWrap` of
Common/ChunkFile.h (not among the sources), which serializes and restores an
ordered sequence of opaque words: serializing appends to the stream, restoring
consumes it from the front. -/
structure PointerWrap where
  mode : PointerWrapMode
  stream : List Nat
deriving DecidableEq, Repr

/-- Modelled from the spec: `PointerWrap::Do` on one word. Restoring from an
exhausted stream has no result. -/
def PointerWrap.DoU32 (p : PointerWrap) (x : Nat) : Option (PointerWrap × Nat) :=
  match p.mode with
  | PointerWrapMode.MODE_WRITE => some ({ p with stream := p.stream ++ [x] }, x)
  | PointerWrapMode.MODE_READ =>
    match p.stream with
    | [] => none
    | w :: rest => some ({ p with stream := rest }, w)

/-- Modelled from the spec: `PointerWrap::Do` on each element of a container,
in order. -/
def PointerWrap.DoEachElement (p : PointerWrap) : List Nat → Option (PointerWrap × List Nat)
  | [] => some (p, [])
  | x :: xs => do
    let (p1, x') ← p.DoU32 x
    let (p2, xs') ← p1.DoEachElement xs
    pure (p2, x' :: xs')

/-- The container operation `resize(size)`: truncates, or pads with zeros. -/
def resize (xs : List Nat) (size : Nat) : List Nat :=
  xs.take size ++ List.replicate (size - xs.length) 0

/-- Modelled from the spec: `PointerWrap::Do` on a `std::deque<u32>`: the number
of elements, then the elements in order. -/
def PointerWrap.DoDeque (p : PointerWrap) (x : List Nat) : Option (PointerWrap × List Nat) := do
  let (p1, size) ← p.DoU32 x.length
  p1.DoEachElement (resize x size)

/-- Modelled from the spec: `DoStateShared` of the device base class (not among
the sources): the persisted fields of the base class, taken as a fixed number
of words. -/
def DoStateShared (p : PointerWrap) (shared : List Nat) : Option (PointerWrap × List Nat) :=
  p.DoEachElement shared

/-- `CWII_IPC_HLE_Device_di::DoState`, on the base-class fields and the device
state. -/
def DoState (p : PointerWrap) (shared : List Nat) (s : State) :
    Option (PointerWrap × List Nat × State) := do
  let (p1, shared') ← DoStateShared p shared
  let (p2, commands) ← p1.DoDeque s.m_commands_to_execute
  pure (p2, shared', { s with m_commands_to_execute := commands })

/-! ## Which request each execution is started for -/

/-- The calls of `StartIOCtl` made during one call, each as the guest memory at
that moment and the request passed: `IOCtl` starts the submitted request when
the queue was empty; `FinishIOCtl` starts the request resolved from the new
front address, after the return value of the completed request is written. -/
def startsOf (P : Platform) (s : State) : Call → List (Mem × IOSIOCtlRequest)
  | Call.IOCtl request =>
    if s.m_commands_to_execute.isEmpty then [(s.memory, request)] else []
  | Call.FinishIOCtl interrupt_type =>
    match s.m_commands_to_execute with
    | command_address :: front :: _ =>
      [(SetReturnValue P s.memory command_address interrupt_type,
        IOSIOCtlRequest.ofAddress P
          (SetReturnValue P s.memory command_address interrupt_type) front)]
    | _ => []
  | Call.Guest _ => []

/-- The calls of `StartIOCtl` made during a sequence of calls, in order. -/
def starts (P : Platform) (s : State) : List Call → List (Mem × IOSIOCtlRequest)
  | [] => []
  | call :: calls => startsOf P s call ++ starts P (step P s call) calls

/-- Request addresses of a list of started requests. -/
def startedAddresses (started : List (Mem × IOSIOCtlRequest)) : List Nat :=
  started.map (fun x => x.2.address)

/-- The `ExecuteCommand` calls issued for a list of started requests. -/
def startedCommands (started : List (Mem × IOSIOCtlRequest)) : List Event :=
  started.map (fun x => executeCommandFor x.1 x.2)

/-- The assertion on `in_vectors[i]` does not stop handling: assertions are
not evaluated, or the descriptor is unset, or the prompt of the failed
assertion is answered yes. -/
def assertionPasses (P : Platform) (in_vectors : List IOVector) (i : Nat) (message : String) :
    Prop :=
  P.debug = true → ∀ vector ∈ in_vectors[i]?, vector.address = 0 ∨ P.PanicYesNo message = true

instance (P : Platform) (in_vectors : List IOVector) (i : Nat) (message : String) :
    Decidable (assertionPasses P in_vectors i message) := by
  unfold assertionPasses
  infer_instance

/-- Neither assertion of the open-partition path stops handling. -/
def assertionsPass (P : Platform) (request : IOSIOCtlVRequest) : Prop :=
  assertionPasses P request.in_vectors 1 "DVDLowOpenPartition with ticket" ∧
  assertionPasses P request.in_vectors 2 "DVDLowOpenPartition with cert chain"

instance (P : Platform) (request : IOSIOCtlVRequest) : Decidable (assertionsPass P request) := by
  unfold assertionsPass
  infer_instance

/-- The four byte addresses of the word at `a`. -/
def wordBytes (a : Nat) : List Nat := [a, a + 1, a + 2, a + 3]

/-- The byte addresses read when the request at `address` is resolved from
guest memory `m` and started: the descriptor fields `buffer_in`, `buffer_out`
and `buffer_out_size`, and the three words of the input buffer. -/
def decodedBytes (P : Platform) (m : Mem) (address : Nat) : List Nat :=
  wordBytes (u32 (address + P.buffer_in)) ++ wordBytes (u32 (address + P.buffer_out))
    ++ wordBytes (u32 (address + P.buffer_out_size))
    ++ wordBytes (Read_U32 m (u32 (address + P.buffer_in)))
    ++ wordBytes (u32 (Read_U32 m (u32 (address + P.buffer_in)) + 4))
    ++ wordBytes (u32 (Read_U32 m (u32 (address + P.buffer_in)) + 8))

/-! ## Memory lemmas -/

theorem toU32_lt (v : Int) : toU32 v < 2 ^ 32 := by
  unfold toU32
  have h1 : 0 ≤ v % 2 ^ 32 := Int.emod_nonneg _ (by norm_num)
  have h2 : v % 2 ^ 32 < 2 ^ 32 := Int.emod_lt_of_pos _ (by norm_num)
  omega

theorem Read_U32_lt (m : Mem) (address : Nat) : Read_U32 m address < 2 ^ 32 := by
  unfold Read_U32
  have h0 := Nat.mod_lt (m address) (show 0 < 256 by norm_num)
  have h1 := Nat.mod_lt (m (address + 1)) (show 0 < 256 by norm_num)
  have h2 := Nat.mod_lt (m (address + 2)) (show 0 < 256 by norm_num)
  have h3 := Nat.mod_lt (m (address + 3)) (show 0 < 256 by norm_num)
  norm_num
  omega

theorem Read_U32_Write_U32 (m : Mem) (value address : Nat) (h : value < 2 ^ 32) :
    Read_U32 (Write_U32 m value address) address = value := by
  unfold Read_U32 Write_U32
  norm_num at h ⊢
  omega

theorem Read_U32_SetReturnValue (P : Platform) (m : Mem) (address : Nat) (v : Int) :
    Read_U32 (SetReturnValue P m address v) (returnValueAddress P address) = toU32 v :=
  Read_U32_Write_U32 m _ _ (toU32_lt v)

/-! ## Single calls on the timed path -/

/-- C3: `IOCtl` always returns the no-reply result, enqueues no reply (the calls
it adds contain no `EnqueueReply`), and leaves the queue equal to the old queue
with `request.address` appended at the back, one entry longer. -/
theorem IOCtl_appends_and_defers (s : State) (request : IOSIOCtlRequest) :
    (IOCtl s request).2 = GetNoReply ∧
    (IOCtl s request).2 = IPCCommandResult.NoReply ∧
    (∃ new, (IOCtl s request).1.trace = s.trace ++ new ∧ repliedAddresses new = []) ∧
    (IOCtl s request).1.m_commands_to_execute
      = s.m_commands_to_execute ++ [request.address] ∧
    (IOCtl s request).1.m_commands_to_execute.length
      = s.m_commands_to_execute.length + 1 := by
  refine ⟨rfl, rfl, ?_, ?_, ?_⟩
  · cases hq : s.m_commands_to_execute with
    | nil =>
      exact ⟨[executeCommandFor s.memory request],
        by simp [IOCtl, StartIOCtl, hq], by simp [executeCommandFor, repliedAddresses]⟩
    | cons a rest =>
      exact ⟨[], by simp [IOCtl, hq], rfl⟩
  · cases hq : s.m_commands_to_execute <;> simp [IOCtl, StartIOCtl, hq]
  · cases hq : s.m_commands_to_execute <;> simp [IOCtl, StartIOCtl, hq]

/-- C4: `IOCtl` issues exactly one `ExecuteCommand` call, the one for the
submitted request, when the queue was empty before the call, and no call at all
when the queue was non-empty. -/
theorem IOCtl_starts_iff_idle (s : State) (request : IOSIOCtlRequest) :
    (IOCtl s request).1.trace = s.trace ++
      (if s.m_commands_to_execute = [] then
        [Event.ExecuteCommand (Read_U32 s.memory request.buffer_in)
          (Read_U32 s.memory (u32 (request.buffer_in + 4)))
          (Read_U32 s.memory (u32 (request.buffer_in + 8)))
          request.buffer_out request.buffer_out_size true]
      else []) := by
  cases hq : s.m_commands_to_execute with
  | nil => simp [IOCtl, StartIOCtl, executeCommandFor, hq]
  | cons a rest => simp [IOCtl, hq]

/-- C5: on a non-empty queue `a :: rest`, `FinishIOCtl` leaves the queue equal
to `rest`, writes the outcome value into the result field of the request at
address `a`, hands exactly one reply, for that request and carrying that value,
to `EnqueueReply`, and raises no panic diagnostic. -/
theorem FinishIOCtl_nonempty (P : Platform) (a : Nat) (rest : List Nat) (m : Mem)
    (t : List Event) (interrupt_type : DIInterruptType) :
    let s' := FinishIOCtl P { m_commands_to_execute := a :: rest, memory := m, trace := t }
      interrupt_type
    s'.m_commands_to_execute = rest ∧
    s'.memory = SetReturnValue P m (IOSIOCtlRequest.ofAddress P m a).address interrupt_type ∧
    (IOSIOCtlRequest.ofAddress P m a).address = a ∧
    Read_U32 s'.memory (returnValueAddress P a) = toU32 interrupt_type ∧
    ∃ new, s'.trace = t ++ new ∧ repliedAddresses new = [a] ∧
      repliedValues new = [toU32 interrupt_type] ∧ panicAlerts new = [] := by
  cases rest with
  | nil =>
    refine ⟨rfl, rfl, rfl, Read_U32_SetReturnValue P m a _, ?_⟩
    exact ⟨[Event.EnqueueReply a (toU32 interrupt_type)],
      by simp [FinishIOCtl, IOSIOCtlRequest.ofAddress, Read_U32_SetReturnValue],
      rfl, rfl, rfl⟩
  | cons b rest =>
    refine ⟨rfl, rfl, rfl, Read_U32_SetReturnValue P m a _, ?_⟩
    exact ⟨[Event.EnqueueReply a (toU32 interrupt_type),
        executeCommandFor (SetReturnValue P m a interrupt_type)
          (IOSIOCtlRequest.ofAddress P (SetReturnValue P m a interrupt_type) b)],
      by simp [FinishIOCtl, StartIOCtl, IOSIOCtlRequest.ofAddress, Read_U32_SetReturnValue],
      rfl, rfl, rfl⟩

/-- C6: on an empty queue `FinishIOCtl` raises the panic diagnostic exactly
once and does nothing else: the queue stays empty, guest memory (hence every
result field) is unchanged, and the only call added is the `PanicAlert`, so no
reply is enqueued and no execution is started. -/
theorem FinishIOCtl_empty (P : Platform) (m : Mem) (t : List Event)
    (interrupt_type : DIInterruptType) :
    let s' := FinishIOCtl P { m_commands_to_execute := [], memory := m, trace := t }
      interrupt_type
    s'.m_commands_to_execute = [] ∧ s'.memory = m ∧
    s'.trace = t ++ [Event.PanicAlert noCommandMessage] ∧
    panicAlerts [Event.PanicAlert noCommandMessage] = [noCommandMessage] ∧
    repliedAddresses [Event.PanicAlert noCommandMessage] = [] ∧
    executeCommands [Event.PanicAlert noCommandMessage] = [] :=
  ⟨rfl, rfl, rfl, rfl, rfl, rfl⟩

/-- C7: after `FinishIOCtl` removes the front `a` of a non-empty queue, the
calls it has added are the reply for `a` followed, when the remaining queue is
non-empty, by exactly one `ExecuteCommand` call for the request reconstructed
from the new front address, and by nothing when the remaining queue is empty. -/
theorem FinishIOCtl_drains (P : Platform) (a : Nat) (rest : List Nat) (m : Mem)
    (t : List Event) (interrupt_type : DIInterruptType) :
    (FinishIOCtl P { m_commands_to_execute := a :: rest, memory := m, trace := t }
      interrupt_type).trace
    = t ++ Event.EnqueueReply a (toU32 interrupt_type) ::
        (match rest with
         | [] => []
         | front :: _ =>
           [executeCommandFor (SetReturnValue P m a interrupt_type)
             (IOSIOCtlRequest.ofAddress P (SetReturnValue P m a interrupt_type) front)]) := by
  cases rest with
  | nil => simp [FinishIOCtl, IOSIOCtlRequest.ofAddress, Read_U32_SetReturnValue]
  | cons b rest =>
    simp [FinishIOCtl, StartIOCtl, IOSIOCtlRequest.ofAddress, Read_U32_SetReturnValue]

/-- C8: `StartIOCtl` issues exactly one `ExecuteCommand` call whose arguments
are the words read at `buffer_in`, `buffer_in + 4` and `buffer_in + 8` (sums
taken in `u32`, plain sums when `buffer_in + 8` fits in 32 bits), then
`buffer_out` and `buffer_out_size`, with the reply flag true; the queue and
guest memory are unchanged. -/
theorem StartIOCtl_translates (s : State) (request : IOSIOCtlRequest) :
    (StartIOCtl s request).trace = s.trace ++
      [Event.ExecuteCommand (Read_U32 s.memory request.buffer_in)
        (Read_U32 s.memory (u32 (request.buffer_in + 4)))
        (Read_U32 s.memory (u32 (request.buffer_in + 8)))
        request.buffer_out request.buffer_out_size true] ∧
    (StartIOCtl s request).m_commands_to_execute = s.m_commands_to_execute ∧
    (StartIOCtl s request).memory = s.memory ∧
    (request.buffer_in + 8 < 2 ^ 32 →
      u32 (request.buffer_in + 4) = request.buffer_in + 4 ∧
      u32 (request.buffer_in + 8) = request.buffer_in + 8) := by
  refine ⟨rfl, rfl, rfl, fun h => ?_⟩
  unfold u32
  constructor <;> apply Nat.mod_eq_of_lt <;> omega

/-! ## Sequences of calls -/

theorem repliedAddresses_append (xs ys : List Event) :
    repliedAddresses (xs ++ ys) = repliedAddresses xs ++ repliedAddresses ys := by
  induction xs with
  | nil => rfl
  | cons e xs ih => cases e <;> simp [repliedAddresses, ih]

theorem repliedValues_append (xs ys : List Event) :
    repliedValues (xs ++ ys) = repliedValues xs ++ repliedValues ys := by
  induction xs with
  | nil => rfl
  | cons e xs ih => cases e <;> simp [repliedValues, ih]

theorem executeCommands_append (xs ys : List Event) :
    executeCommands (xs ++ ys) = executeCommands xs ++ executeCommands ys := by
  induction xs with
  | nil => rfl
  | cons e xs ih => cases e <;> simp [executeCommands, ih]

theorem repliedValues_length (xs : List Event) :
    (repliedValues xs).length = (repliedAddresses xs).length := by
  induction xs with
  | nil => rfl
  | cons e xs ih => cases e <;> simp [repliedValues, repliedAddresses, ih]

theorem run_cons (P : Platform) (s : State) (c : Call) (calls : List Call) :
    run P s (c :: calls) = run P (step P s c) calls := rfl

/-- Replied addresses followed by the queue are the addresses submitted so far. -/
theorem step_addresses (P : Platform) (s : State) (c : Call) :
    repliedAddresses (step P s c).trace ++ (step P s c).m_commands_to_execute
      = repliedAddresses s.trace ++ s.m_commands_to_execute ++ submitted [c] := by
  obtain ⟨q, m, t⟩ := s
  cases c with
  | IOCtl request =>
    cases q <;>
      simp [step, IOCtl, StartIOCtl, submitted, repliedAddresses_append, executeCommandFor,
        repliedAddresses]
  | FinishIOCtl v =>
    rcases q with _ | ⟨a, _ | ⟨b, rest⟩⟩ <;>
      simp [step, FinishIOCtl, StartIOCtl, submitted, repliedAddresses_append,
        executeCommandFor, repliedAddresses, IOSIOCtlRequest.ofAddress]
  | Guest memory => simp [step, submitted]

theorem submitted_cons (c : Call) (calls : List Call) :
    submitted (c :: calls) = submitted [c] ++ submitted calls := by
  cases c <;> simp [submitted]

theorem run_addresses (P : Platform) (s : State) (calls : List Call) :
    repliedAddresses (run P s calls).trace ++ (run P s calls).m_commands_to_execute
      = repliedAddresses s.trace ++ s.m_commands_to_execute ++ submitted calls := by
  induction calls generalizing s with
  | nil => simp [run, submitted]
  | cons c calls ih =>
    rw [run_cons, ih, step_addresses, submitted_cons c calls]
    simp

/-- Each completion that found the queue non-empty adds one reply carrying its
outcome value; no other call adds a reply. -/
theorem step_values (P : Platform) (s : State) (c : Call) (calls : List Call) :
    repliedValues (step P s c).trace
        ++ (completions P (step P s c) calls).map toU32
      = repliedValues s.trace ++ (completions P s (c :: calls)).map toU32 := by
  obtain ⟨q, m, t⟩ := s
  cases c with
  | IOCtl request =>
    cases q <;>
      simp [step, IOCtl, StartIOCtl, completions, repliedValues_append, executeCommandFor,
        repliedValues]
  | FinishIOCtl v =>
    rcases q with _ | ⟨a, _ | ⟨b, rest⟩⟩ <;>
      simp [step, FinishIOCtl, StartIOCtl, completions, repliedValues_append,
        executeCommandFor, repliedValues, IOSIOCtlRequest.ofAddress, Read_U32_SetReturnValue]
  | Guest memory => simp [step, completions]

theorem run_values (P : Platform) (s : State) (calls : List Call) :
    repliedValues (run P s calls).trace
      = repliedValues s.trace ++ (completions P s calls).map toU32 := by
  induction calls generalizing s with
  | nil => simp [run, completions]
  | cons c calls ih => rw [run_cons, ih, step_values]

theorem step_oneActive (P : Platform) (s : State) (c : Call) (h : oneActive s) :
    oneActive (step P s c) := by
  obtain ⟨q, m, t⟩ := s
  unfold oneActive at h ⊢
  cases c with
  | IOCtl request =>
    cases q <;>
      simp_all [step, IOCtl, StartIOCtl, repliedAddresses_append, executeCommands_append,
        executeCommandFor, repliedAddresses, executeCommands]
  | FinishIOCtl v =>
    rcases q with _ | ⟨a, _ | ⟨b, rest⟩⟩ <;>
      simp_all [step, FinishIOCtl, StartIOCtl, repliedAddresses_append,
        executeCommands_append, executeCommandFor, repliedAddresses, executeCommands,
        IOSIOCtlRequest.ofAddress]
  | Guest memory => simpa [step] using h

theorem run_oneActive (P : Platform) (s : State) (calls : List Call) (h : oneActive s) :
    oneActive (run P s calls) := by
  induction calls generalizing s with
  | nil => simpa [run] using h
  | cons c calls ih => rw [run_cons]; exact ih _ (step_oneActive P s c h)

/-- C1: for every sequence of calls from the empty queue, the addresses handed
to `EnqueueReply` are, in order, a prefix of the addresses submitted through
`IOCtl`; the k-th reply carries the outcome value of the k-th `FinishIOCtl` call
that found the queue non-empty; and once as many such completions as
submissions have happened, the two address lists are equal and the queue is
empty. -/
theorem replies_fifo (P : Platform) (memory : Mem) (calls : List Call) :
    repliedAddresses (run P (State.init memory) calls).trace <+: submitted calls ∧
    repliedValues (run P (State.init memory) calls).trace
      = (completions P (State.init memory) calls).map toU32 ∧
    (repliedAddresses (run P (State.init memory) calls).trace).length
      = (completions P (State.init memory) calls).length ∧
    ((completions P (State.init memory) calls).length = (submitted calls).length →
      repliedAddresses (run P (State.init memory) calls).trace = submitted calls ∧
      (run P (State.init memory) calls).m_commands_to_execute = []) := by
  have ha := run_addresses P (State.init memory) calls
  have hv := run_values P (State.init memory) calls
  simp only [State.init, repliedAddresses, repliedValues, List.nil_append] at ha hv
  have hl : (repliedAddresses (run P (State.init memory) calls).trace).length
      = (completions P (State.init memory) calls).length := by
    rw [← repliedValues_length]
    simp only [State.init]
    rw [hv, List.length_map]
  refine ⟨⟨_, ha⟩, hv, hl, fun hn => ?_⟩
  have hlen := congrArg List.length ha
  rw [List.length_append] at hlen
  simp only [State.init] at hl hn hlen ⊢
  have hq : (run P { m_commands_to_execute := [], memory := memory, trace := [] }
      calls).m_commands_to_execute = [] := List.length_eq_zero.mp (by omega)
  rw [hq, List.append_nil] at ha
  exact ⟨ha, hq⟩

/-- C2: in every state reachable from the empty queue, the number of
`ExecuteCommand` calls issued minus the number of replies enqueued is 1 when the
queue is non-empty and 0 when it is empty, hence never more than 1. -/
theorem at_most_one_active (P : Platform) (memory : Mem) (calls : List Call) :
    (executeCommands (run P (State.init memory) calls).trace).length
      = (repliedAddresses (run P (State.init memory) calls).trace).length
        + (if (run P (State.init memory) calls).m_commands_to_execute = [] then 0 else 1) ∧
    (executeCommands (run P (State.init memory) calls).trace).length
      - (repliedAddresses (run P (State.init memory) calls).trace).length
      = (if (run P (State.init memory) calls).m_commands_to_execute = [] then 0 else 1) ∧
    (executeCommands (run P (State.init memory) calls).trace).length
      - (repliedAddresses (run P (State.init memory) calls).trace).length ≤ 1 := by
  have h := run_oneActive P (State.init memory) calls (by simp [oneActive, State.init, executeCommands, repliedAddresses])
  unfold oneActive at h
  refine ⟨h, ?_, ?_⟩
  · omega
  · split at h <;> omega

/-! ## The vectorized path -/

theorem changePartitions_append (xs ys : List Event) :
    changePartitions (xs ++ ys) = changePartitions xs ++ changePartitions ys := by
  induction xs with
  | nil => rfl
  | cons e xs ih => cases e <;> simp [changePartitions, ih]

theorem zeroVectors_cons (m : Mem) (vector : IOVector) (io_vectors : List IOVector) :
    zeroVectors m (vector :: io_vectors)
      = zeroVectors (Memset m vector.address 0 vector.size) io_vectors := rfl

theorem inVectors_cons (vector : IOVector) (io_vectors : List IOVector) (a : Nat) :
    inVectors (vector :: io_vectors) a ↔
      (vector.address ≤ a ∧ a < vector.address + vector.size) ∨ inVectors io_vectors a := by
  simp [inVectors]

/-- Bytes outside every descriptor range keep their value. -/
theorem zeroVectors_outside (m : Mem) (io_vectors : List IOVector) (a : Nat)
    (h : ¬ inVectors io_vectors a) : zeroVectors m io_vectors a = m a := by
  induction io_vectors generalizing m with
  | nil => rfl
  | cons vector io_vectors ih =>
    rw [inVectors_cons, not_or] at h
    rw [zeroVectors_cons, ih _ h.2]
    simp only [Memset]
    rw [if_neg h.1]

/-- Bytes inside some descriptor range are zero. -/
theorem zeroVectors_inside (m : Mem) (io_vectors : List IOVector) (a : Nat)
    (h : inVectors io_vectors a) : zeroVectors m io_vectors a = 0 := by
  induction io_vectors generalizing m with
  | nil => simp [inVectors] at h
  | cons vector io_vectors ih =>
    rw [zeroVectors_cons]
    by_cases hin : inVectors io_vectors a
    · exact ih _ hin
    · rw [zeroVectors_outside _ _ _ hin]
      rw [inVectors_cons] at h
      simp only [Memset]
      rw [if_pos (h.resolve_right hin)]

theorem zeroVectors_apply (m : Mem) (io_vectors : List IOVector) (a : Nat) :
    zeroVectors m io_vectors a = if inVectors io_vectors a then 0 else m a := by
  split
  · next h => exact zeroVectors_inside m io_vectors a h
  · next h => exact zeroVectors_outside m io_vectors a h

theorem Write_U32_outside (m : Mem) (value address a : Nat)
    (h : ¬ (address ≤ a ∧ a < address + 4)) : Write_U32 m value address a = m a := by
  unfold Write_U32
  have h0 : a ≠ address := by omega
  have h1 : a ≠ address + 1 := by omega
  have h2 : a ≠ address + 2 := by omega
  have h3 : a ≠ address + 3 := by omega
  simp [h0, h1, h2, h3]

theorem Write_U32_zero (m : Mem) (address a : Nat) :
    Write_U32 m 0 address a = if address ≤ a ∧ a < address + 4 then 0 else m a := by
  by_cases hr : address ≤ a ∧ a < address + 4
  · rw [if_pos hr]
    unfold Write_U32
    have : a = address ∨ a = address + 1 ∨ a = address + 2 ∨ a = address + 3 := by omega
    rcases this with h | h | h | h <;> simp [h]
  · rw [if_neg hr]
    exact Write_U32_outside m 0 address a hr

theorem Read_U32_congr (m m' : Mem) (address : Nat)
    (h : ∀ i, i < 4 → m' (address + i) = m (address + i)) :
    Read_U32 m' address = Read_U32 m address := by
  unfold Read_U32
  have h0 := h 0 (by norm_num)
  rw [Nat.add_zero] at h0
  rw [h0, h 1 (by norm_num), h 2 (by norm_num), h 3 (by norm_num)]

/-- The result of `IOCtlV` on a request with another opcode. -/
theorem IOCtlV_unknown_eq (P : Platform) (s : State) (request : IOSIOCtlVRequest)
    (h : request.request ≠ P.DVDLowOpenPartition) :
    IOCtlV P s request
      = some ({ m_commands_to_execute := s.m_commands_to_execute
                memory := SetReturnValue P (zeroVectors s.memory request.io_vectors)
                  request.address P.IPC_SUCCESS
                trace := s.trace ++ [Event.DumpUnknown] }, IPCCommandResult.DefaultReply) := by
  simp [IOCtlV, h, GetDefaultReply]

/-- C9: for a request whose opcode is not `DVDLowOpenPartition`, handling
completes with the default immediate reply; the only call made is the log of the
unknown command, so `ChangePartition` and `ES_DIVerify` are not called; the
result field holds `IPC_SUCCESS`; and outside the result field every byte of
every output range is zero and every other byte is unchanged. When
`IPC_SUCCESS` is 0 every byte of every output range is zero, also where the
range overlaps the result field. -/
theorem IOCtlV_unknown (P : Platform) (s : State) (request : IOSIOCtlVRequest)
    (h : request.request ≠ P.DVDLowOpenPartition) :
    IOCtlV P s request
      = some ({ m_commands_to_execute := s.m_commands_to_execute
                memory := SetReturnValue P (zeroVectors s.memory request.io_vectors)
                  request.address P.IPC_SUCCESS
                trace := s.trace ++ [Event.DumpUnknown] }, IPCCommandResult.DefaultReply) ∧
    changePartitions [Event.DumpUnknown] = [] ∧ verifiedBlobs [Event.DumpUnknown] = [] ∧
    Read_U32 (SetReturnValue P (zeroVectors s.memory request.io_vectors) request.address
        P.IPC_SUCCESS) (returnValueAddress P request.address) = toU32 P.IPC_SUCCESS ∧
    (∀ a, ¬ (returnValueAddress P request.address ≤ a
          ∧ a < returnValueAddress P request.address + 4) →
      SetReturnValue P (zeroVectors s.memory request.io_vectors) request.address
        P.IPC_SUCCESS a = if inVectors request.io_vectors a then 0 else s.memory a) ∧
    (P.IPC_SUCCESS = 0 → ∀ a, inVectors request.io_vectors a →
      SetReturnValue P (zeroVectors s.memory request.io_vectors) request.address
        P.IPC_SUCCESS a = 0) := by
  refine ⟨?_, rfl, rfl, Read_U32_SetReturnValue P _ _ _, ?_, ?_⟩
  · simp [IOCtlV, h, GetDefaultReply]
  · intro a ha
    unfold SetReturnValue
    rw [Write_U32_outside _ _ _ _ ha, zeroVectors_apply]
  · intro h0 a ha
    unfold SetReturnValue
    rw [h0]
    have : toU32 0 = 0 := by decide
    rw [this, Write_U32_zero]
    split
    · rfl
    · exact zeroVectors_inside _ _ _ ha

/-- With the index in bounds whenever assertions are evaluated, an assertion
that does not stop handling completes and adds at most its own report. -/
theorem dbgAssertUnset_some (P : Platform) (in_vectors : List IOVector) (i : Nat)
    (message : String) (h : P.debug = true → i < in_vectors.length)
    (hp : assertionPasses P in_vectors i message) :
    ∃ e, dbgAssertUnset P in_vectors i message = some e ∧
      (e = [] ∨ e = [Event.dbg_assert_msg message]) := by
  unfold dbgAssertUnset
  cases hd : P.debug with
  | false => exact ⟨[], by simp, Or.inl rfl⟩
  | true =>
    have hi := h hd
    have hv := hp hd (in_vectors[i]) (by simp [List.getElem?_eq_getElem hi])
    rw [List.getElem?_eq_getElem hi]
    by_cases h0 : (in_vectors[i]).address = 0
    · exact ⟨[], by simp [h0], Or.inl rfl⟩
    · have hy : P.PanicYesNo message = true := hv.resolve_left h0
      exact ⟨[Event.dbg_assert_msg message], by simp [h0, hy], Or.inr rfl⟩

/-- An assertion that completes did not stop handling. -/
theorem dbgAssertUnset_passes (P : Platform) (in_vectors : List IOVector) (i : Nat)
    (message : String) (e : List Event) (h : dbgAssertUnset P in_vectors i message = some e) :
    assertionPasses P in_vectors i message := by
  intro hd vector hv
  unfold dbgAssertUnset at h
  rw [if_pos hd] at h
  have hv' : in_vectors[i]? = some vector := hv
  rw [hv'] at h
  by_cases h0 : vector.address = 0
  · exact Or.inl h0
  · right
    by_contra hy
    simp [h0, hy] at h

theorem partitionWord_lt (m : Mem) (address : Nat) : partitionWord m address < 2 ^ 32 :=
  Read_U32_lt m _

theorem partitionOffset_eq (m : Mem) (address : Nat) :
    partitionOffset m address = 4 * partitionWord m address := by
  unfold partitionOffset
  have h := partitionWord_lt m address
  rw [Nat.shiftLeft_eq]
  norm_num at h ⊢
  omega

/-- The result of `IOCtlV` on a `DVDLowOpenPartition` request whose indexed
descriptors exist. -/
theorem IOCtlV_open (P : Platform) (s : State) (request : IOSIOCtlVRequest)
    (in0 io0 : IOVector)
    (h_op : request.request = P.DVDLowOpenPartition)
    (h_in0 : request.in_vectors[0]? = some in0)
    (h_dbg : P.debug = true → 3 ≤ request.in_vectors.length)
    (h_io0 : request.io_vectors[0]? = some io0)
    (h_pass : assertionsPass P request) :
    ∃ e1 e2,
      (e1 = [] ∨ e1 = [Event.dbg_assert_msg "DVDLowOpenPartition with ticket"]) ∧
      (e2 = [] ∨ e2 = [Event.dbg_assert_msg "DVDLowOpenPartition with cert chain"]) ∧
      IOCtlV P s request
        = some ({ m_commands_to_execute := s.m_commands_to_execute
                  memory := SetReturnValue P
                    (CopyToEmu (zeroVectors s.memory request.io_vectors) io0.address
                      (P.GetTMD
                        (partitionOffset (zeroVectors s.memory request.io_vectors) in0.address)))
                    request.address 1
                  trace := s.trace ++ e1 ++ e2 ++
                    [Event.ChangePartition
                      (partitionOffset (zeroVectors s.memory request.io_vectors) in0.address),
                     Event.ES_DIVerify
                      (P.GetTMD
                        (partitionOffset (zeroVectors s.memory request.io_vectors) in0.address))
                      (P.ES_DIVerify (P.GetTMD
                        (partitionOffset (zeroVectors s.memory request.io_vectors)
                          in0.address)))] },
                IPCCommandResult.DefaultReply) := by
  obtain ⟨e1, he1, hc1⟩ := dbgAssertUnset_some P request.in_vectors 1
    "DVDLowOpenPartition with ticket" (fun hd => by have := h_dbg hd; omega) h_pass.1
  obtain ⟨e2, he2, hc2⟩ := dbgAssertUnset_some P request.in_vectors 2
    "DVDLowOpenPartition with cert chain" (fun hd => by have := h_dbg hd; omega) h_pass.2
  refine ⟨e1, e2, hc1, hc2, ?_⟩
  simp [IOCtlV, openPartition, h_op, he1, he2, h_in0, h_io0, GetDefaultReply]

/-- C10 fails as stated: in a debug build whose assertion prompt is answered no,
the open-partition request `ticketRequest`, whose ticket buffer is set, is
stopped at the first assertion, before `ChangePartition`: handling has no
result and no partition change is made. -/
theorem partition_offset_counterexample :
    ticketRequest.request = strictPlatform.DVDLowOpenPartition ∧
    dbgAssertUnset strictPlatform ticketRequest.in_vectors 1
      "DVDLowOpenPartition with ticket" = none ∧
    (IOCtlV strictPlatform (State.init exampleMemory) ticketRequest).map
      (fun r => changePartitions r.1.trace) = none := by
  decide

/-- C10, amended: for a `DVDLowOpenPartition` request whose indexed descriptors
exist and whose handling is not stopped by a failed debug assertion, handling
completes and `ChangePartition` is called exactly once, with 4 * w, where w is
the word read at `in_vectors[0].address + 4` after the output ranges have been
zeroed; this is `w << 2` without truncation, at most 2^34 - 4, and 0x10 when w
is 4. When no output range overlaps those four bytes, w is the word of the
initial guest memory. -/
theorem IOCtlV_partition_offset (P : Platform) (s : State) (request : IOSIOCtlVRequest)
    (in0 io0 : IOVector)
    (h_op : request.request = P.DVDLowOpenPartition)
    (h_in0 : request.in_vectors[0]? = some in0)
    (h_dbg : P.debug = true → 3 ≤ request.in_vectors.length)
    (h_io0 : request.io_vectors[0]? = some io0)
    (h_pass : assertionsPass P request) :
    (∃ s' new, IOCtlV P s request = some (s', IPCCommandResult.DefaultReply) ∧
      s'.trace = s.trace ++ new ∧
      changePartitions new
        = [4 * partitionWord (zeroVectors s.memory request.io_vectors) in0.address] ∧
      (partitionWord (zeroVectors s.memory request.io_vectors) in0.address = 0x4 →
        changePartitions new = [0x10])) ∧
    partitionWord (zeroVectors s.memory request.io_vectors) in0.address
      = Read_U32 (zeroVectors s.memory request.io_vectors) (u32 (in0.address + 4)) ∧
    partitionWord (zeroVectors s.memory request.io_vectors) in0.address < 2 ^ 32 ∧
    4 * partitionWord (zeroVectors s.memory request.io_vectors) in0.address
      = partitionWord (zeroVectors s.memory request.io_vectors) in0.address <<< 2 ∧
    4 * partitionWord (zeroVectors s.memory request.io_vectors) in0.address ≤ 2 ^ 34 - 4 ∧
    4 * partitionWord (zeroVectors s.memory request.io_vectors) in0.address < 2 ^ 64 ∧
    ((∀ i, i < 4 → ¬ inVectors request.io_vectors (u32 (in0.address + 4) + i)) →
      partitionWord (zeroVectors s.memory request.io_vectors) in0.address
        = Read_U32 s.memory (u32 (in0.address + 4))) := by
  have hw := partitionWord_lt (zeroVectors s.memory request.io_vectors) in0.address
  refine ⟨?_, rfl, hw, ?_, ?_, ?_, ?_⟩
  · obtain ⟨e1, e2, hc1, hc2, hrun⟩ := IOCtlV_open P s request in0 io0 h_op h_in0 h_dbg h_io0 h_pass
    have hcp : changePartitions (e1 ++ e2 ++
        [Event.ChangePartition
          (partitionOffset (zeroVectors s.memory request.io_vectors) in0.address),
         Event.ES_DIVerify
          (P.GetTMD (partitionOffset (zeroVectors s.memory request.io_vectors) in0.address))
          (P.ES_DIVerify (P.GetTMD
            (partitionOffset (zeroVectors s.memory request.io_vectors) in0.address)))])
        = [4 * partitionWord (zeroVectors s.memory request.io_vectors) in0.address] := by
      rw [changePartitions_append, changePartitions_append, partitionOffset_eq]
      rcases hc1 with h1 | h1 <;> rcases hc2 with h2 | h2 <;>
        simp [h1, h2, changePartitions]
    refine ⟨_, _, hrun, ?_, hcp, fun h4 => ?_⟩
    · simp [List.append_assoc]
    · rw [hcp, h4]
  · rw [Nat.shiftLeft_eq]; omega
  · norm_num at hw ⊢; omega
  · norm_num at hw ⊢; omega
  · intro hno
    unfold partitionWord
    apply Read_U32_congr
    intro i hi
    exact zeroVectors_outside _ _ _ (hno i hi)

/-! ## Evaluation on concrete inputs -/

/-- Two submissions followed by two completions: both replies are delivered in
submission order and the queue is empty again. -/
theorem replies_fifo_witness :
    (completions examplePlatform (State.init exampleMemory)
        [Call.IOCtl ⟨0x1000, 0x300, 0x500, 0x20⟩, Call.IOCtl ⟨0x2000, 0x320, 0x600, 0x20⟩,
         Call.FinishIOCtl 1, Call.FinishIOCtl 3]).length
      = (submitted
        [Call.IOCtl ⟨0x1000, 0x300, 0x500, 0x20⟩, Call.IOCtl ⟨0x2000, 0x320, 0x600, 0x20⟩,
         Call.FinishIOCtl 1, Call.FinishIOCtl 3]).length ∧
    repliedAddresses (run examplePlatform (State.init exampleMemory)
        [Call.IOCtl ⟨0x1000, 0x300, 0x500, 0x20⟩, Call.IOCtl ⟨0x2000, 0x320, 0x600, 0x20⟩,
         Call.FinishIOCtl 1, Call.FinishIOCtl 3]).trace
      = submitted
        [Call.IOCtl ⟨0x1000, 0x300, 0x500, 0x20⟩, Call.IOCtl ⟨0x2000, 0x320, 0x600, 0x20⟩,
         Call.FinishIOCtl 1, Call.FinishIOCtl 3] ∧
    (run examplePlatform (State.init exampleMemory)
        [Call.IOCtl ⟨0x1000, 0x300, 0x500, 0x20⟩, Call.IOCtl ⟨0x2000, 0x320, 0x600, 0x20⟩,
         Call.FinishIOCtl 1, Call.FinishIOCtl 3]).m_commands_to_execute = [] :=
  ⟨by decide, (replies_fifo examplePlatform exampleMemory _).2.2.2 (by decide)⟩

/-- A request whose input buffer lies at 0x300: the three words are read at
0x300, 0x304 and 0x308. -/
theorem StartIOCtl_translates_witness :
    (0x300 + 8 < 2 ^ 32) ∧ u32 (0x300 + 4) = 0x300 + 4 ∧ u32 (0x300 + 8) = 0x300 + 8 :=
  ⟨by decide,
    (StartIOCtl_translates (State.init exampleMemory) ⟨0x1000, 0x300, 0x500, 0x20⟩).2.2.2
      (by decide)⟩

/-- The unknown opcode 0x12 with output buffers of sizes 8 and 16. -/
theorem IOCtlV_unknown_witness :
    unknownRequest.request ≠ examplePlatform.DVDLowOpenPartition ∧
    IOCtlV examplePlatform (State.init exampleMemory) unknownRequest
      = some ({ m_commands_to_execute := []
                memory := SetReturnValue examplePlatform
                  (zeroVectors exampleMemory unknownRequest.io_vectors)
                  unknownRequest.address examplePlatform.IPC_SUCCESS
                trace := [] ++ [Event.DumpUnknown] }, IPCCommandResult.DefaultReply) :=
  ⟨by decide,
    (IOCtlV_unknown examplePlatform (State.init exampleMemory) unknownRequest (by decide)).1⟩

/-- The sector field 0x4 gives the byte offset 0x10. -/
theorem IOCtlV_partition_offset_witness :
    openRequest.request = examplePlatform.DVDLowOpenPartition ∧
    openRequest.in_vectors[0]? = some { address := 0x300, size := 8 } ∧
    (examplePlatform.debug = true → 3 ≤ openRequest.in_vectors.length) ∧
    openRequest.io_vectors[0]? = some { address := 0x400, size := 0x20 } ∧
    assertionsPass examplePlatform openRequest ∧
    ∃ s' new, IOCtlV examplePlatform (State.init exampleMemory) openRequest
        = some (s', IPCCommandResult.DefaultReply) ∧
      s'.trace = (State.init exampleMemory).trace ++ new ∧ changePartitions new = [0x10] :=
  ⟨by decide, by decide, by decide, by decide, by decide,
    match (IOCtlV_partition_offset examplePlatform (State.init exampleMemory) openRequest
      { address := 0x300, size := 8 } { address := 0x400, size := 0x20 }
      (by decide) (by decide) (by decide) (by decide) (by decide)).1 with
    | ⟨s', new, h1, h2, _, h4⟩ => ⟨s', new, h1, h2, h4 (by decide)⟩⟩

/-! ## The open-partition path: blob delivery and return value -/

theorem verifiedBlobs_append (xs ys : List Event) :
    verifiedBlobs (xs ++ ys) = verifiedBlobs xs ++ verifiedBlobs ys := by
  induction xs with
  | nil => rfl
  | cons e xs ih => cases e <;> simp [verifiedBlobs, ih]

theorem SetReturnValue_outside (P : Platform) (m : Mem) (address : Nat) (v : Int) (a : Nat)
    (h : ¬ inResultField P address a) : SetReturnValue P m address v a = m a :=
  Write_U32_outside m _ _ a h

theorem CopyToEmu_inside (m : Mem) (address : Nat) (data : List Nat) (i : Nat)
    (h : i < data.length) : CopyToEmu m address data (address + i) = data.getD i 0 := by
  unfold CopyToEmu
  rw [if_pos ⟨Nat.le_add_right _ _, by omega⟩, Nat.add_sub_cancel_left]

theorem CopyToEmu_outside (m : Mem) (address : Nat) (data : List Nat) (a : Nat)
    (h : ¬ (address ≤ a ∧ a < address + data.length)) : CopyToEmu m address data a = m a := by
  unfold CopyToEmu
  rw [if_neg h]

theorem mem_of_getElem?_zero (vectors : List IOVector) (vector : IOVector)
    (h : vectors[0]? = some vector) : vector ∈ vectors := by
  cases vectors with
  | nil => simp at h
  | cons head tail =>
    simp at h
    simp [h]

/-- The calls added on the open-partition path: the partition change and the
verification of the blob, in this order, with assertion reports before them. -/
theorem open_calls (P : Platform) (m : Mem) (address : Nat) (e1 e2 : List Event)
    (h1 : e1 = [] ∨ e1 = [Event.dbg_assert_msg "DVDLowOpenPartition with ticket"])
    (h2 : e2 = [] ∨ e2 = [Event.dbg_assert_msg "DVDLowOpenPartition with cert chain"]) :
    changePartitions (e1 ++ e2 ++
        [Event.ChangePartition (partitionOffset m address),
         Event.ES_DIVerify (P.GetTMD (partitionOffset m address))
          (P.ES_DIVerify (P.GetTMD (partitionOffset m address)))])
      = [partitionOffset m address] ∧
    verifiedBlobs (e1 ++ e2 ++
        [Event.ChangePartition (partitionOffset m address),
         Event.ES_DIVerify (P.GetTMD (partitionOffset m address))
          (P.ES_DIVerify (P.GetTMD (partitionOffset m address)))])
      = [P.GetTMD (partitionOffset m address)] ∧
    executeCommands (e1 ++ e2 ++
        [Event.ChangePartition (partitionOffset m address),
         Event.ES_DIVerify (P.GetTMD (partitionOffset m address))
          (P.ES_DIVerify (P.GetTMD (partitionOffset m address)))]) = [] ∧
    repliedAddresses (e1 ++ e2 ++
        [Event.ChangePartition (partitionOffset m address),
         Event.ES_DIVerify (P.GetTMD (partitionOffset m address))
          (P.ES_DIVerify (P.GetTMD (partitionOffset m address)))]) = [] := by
  rcases h1 with h1 | h1 <;> rcases h2 with h2 | h2 <;>
    simp [h1, h2, changePartitions, verifiedBlobs, executeCommands, repliedAddresses]

/-- C11 fails as stated, in two ways. With the result field of the request at
the start of its first output buffer (`aliasRequest`), the blob passed to
`ES_DIVerify` starts with 0x10 and has three bytes, yet after handling the byte
at `io_vectors[0].address` is 0 and the byte just after the blob, inside the
buffer, is 1. And in a debug build whose assertion prompt is answered no,
`ticketRequest` is stopped before the blob is fetched: no blob is delivered or
verified. -/
theorem blob_delivery_counterexample :
    (IOCtlV examplePlatform (State.init exampleMemory) aliasRequest).map
        (fun r => (verifiedBlobs r.1.trace, r.1.memory 0x400, r.1.memory 0x403))
      = some ([[0x10, 0xAB, 0xCD]], 0, 1) ∧
    (IOCtlV strictPlatform (State.init exampleMemory) ticketRequest).map
        (fun r => verifiedBlobs r.1.trace) = none := by
  decide

/-- C11, amended: for a `DVDLowOpenPartition` request whose indexed descriptors
exist and whose handling is not stopped by a failed debug assertion,
`ES_DIVerify` is called exactly once, with the blob returned by `GetTMD`
after the partition change; after handling, at every address outside the
request's own result field, the bytes from `io_vectors[0].address` on equal the
blob byte for byte and the remaining bytes of the first output buffer are
zero. -/
theorem IOCtlV_blob_delivery (P : Platform) (s : State) (request : IOSIOCtlVRequest)
    (in0 io0 : IOVector)
    (h_op : request.request = P.DVDLowOpenPartition)
    (h_in0 : request.in_vectors[0]? = some in0)
    (h_dbg : P.debug = true → 3 ≤ request.in_vectors.length)
    (h_io0 : request.io_vectors[0]? = some io0)
    (h_pass : assertionsPass P request) :
    ∃ s' new blob, IOCtlV P s request = some (s', IPCCommandResult.DefaultReply) ∧
      s'.trace = s.trace ++ new ∧
      blob = P.GetTMD (partitionOffset (zeroVectors s.memory request.io_vectors) in0.address) ∧
      changePartitions new
        = [partitionOffset (zeroVectors s.memory request.io_vectors) in0.address] ∧
      verifiedBlobs new = [blob] ∧
      (∀ i, i < blob.length → ¬ inResultField P request.address (io0.address + i) →
        s'.memory (io0.address + i) = blob.getD i 0) ∧
      (∀ a, io0.address + blob.length ≤ a → a < io0.address + io0.size →
        ¬ inResultField P request.address a → s'.memory a = 0) := by
  obtain ⟨e1, e2, hc1, hc2, hrun⟩ := IOCtlV_open P s request in0 io0 h_op h_in0 h_dbg h_io0 h_pass
  obtain ⟨hcp, hvb, -, -⟩ := open_calls P (zeroVectors s.memory request.io_vectors)
    in0.address e1 e2 hc1 hc2
  refine ⟨_, _, _, hrun, ?_, rfl, hcp, hvb, ?_, ?_⟩
  · simp [List.append_assoc]
  · intro i hi hr
    show SetReturnValue P _ request.address 1 (io0.address + i) = _
    rw [SetReturnValue_outside _ _ _ _ _ hr, CopyToEmu_inside _ _ _ _ hi]
  · intro a hlo hhi hr
    show SetReturnValue P _ request.address 1 a = _
    rw [SetReturnValue_outside _ _ _ _ _ hr, CopyToEmu_outside _ _ _ _ (by omega)]
    exact zeroVectors_inside _ _ _
      ⟨io0, mem_of_getElem?_zero _ _ h_io0, by omega, hhi⟩

/-- C12 fails as stated: in a debug build whose assertion prompt is answered no,
handling of the open-partition request `ticketRequest` is stopped before
`SetReturnValue`: no return value is written. -/
theorem return_value_counterexample :
    ticketRequest.request = strictPlatform.DVDLowOpenPartition ∧
    (IOCtlV strictPlatform (State.init exampleMemory) ticketRequest).map
      (fun r => Read_U32 r.1.memory (returnValueAddress strictPlatform ticketRequest.address))
      = none := by
  decide

/-- C12, amended: for every request whose handling is not stopped by a failed
debug assertion (and whose indexed descriptors exist), handling completes and
the value read back from the request's result field is 1 when the opcode is
`DVDLowOpenPartition`, for every guest memory, blob and verification result,
and `IPC_SUCCESS` for every other opcode. -/
theorem IOCtlV_return_value (P : Platform) (s : State) (request : IOSIOCtlVRequest)
    (h : request.request = P.DVDLowOpenPartition →
      (∃ in0, request.in_vectors[0]? = some in0) ∧
      (P.debug = true → 3 ≤ request.in_vectors.length) ∧
      (∃ io0, request.io_vectors[0]? = some io0) ∧
      assertionsPass P request) :
    ∃ s', IOCtlV P s request = some (s', IPCCommandResult.DefaultReply) ∧
      Read_U32 s'.memory (returnValueAddress P request.address)
        = toU32 (if request.request = P.DVDLowOpenPartition then 1 else P.IPC_SUCCESS) ∧
      toU32 1 = 1 := by
  by_cases h_op : request.request = P.DVDLowOpenPartition
  · obtain ⟨⟨in0, h_in0⟩, h_dbg, ⟨io0, h_io0⟩, h_pass⟩ := h h_op
    obtain ⟨e1, e2, -, -, hrun⟩ := IOCtlV_open P s request in0 io0 h_op h_in0 h_dbg h_io0 h_pass
    refine ⟨_, hrun, ?_, by decide⟩
    rw [if_pos h_op]
    exact Read_U32_SetReturnValue P _ _ _
  · refine ⟨_, (IOCtlV_unknown_eq P s request h_op), ?_, by decide⟩
    rw [if_neg h_op]
    exact Read_U32_SetReturnValue P _ _ _

/-! ## The optional fields and the independence from the timed queue -/

theorem withoutAsserts_append (xs ys : List Event) :
    withoutAsserts (xs ++ ys) = withoutAsserts xs ++ withoutAsserts ys := by
  induction xs with
  | nil => rfl
  | cons e xs ih => cases e <;> simp [withoutAsserts, ih]

theorem withoutAsserts_open (P : Platform) (m : Mem) (address : Nat) (t e1 e2 : List Event)
    (h1 : e1 = [] ∨ e1 = [Event.dbg_assert_msg "DVDLowOpenPartition with ticket"])
    (h2 : e2 = [] ∨ e2 = [Event.dbg_assert_msg "DVDLowOpenPartition with cert chain"]) :
    withoutAsserts (t ++ e1 ++ e2 ++
        [Event.ChangePartition (partitionOffset m address),
         Event.ES_DIVerify (P.GetTMD (partitionOffset m address))
          (P.ES_DIVerify (P.GetTMD (partitionOffset m address)))])
      = withoutAsserts t ++
        [Event.ChangePartition (partitionOffset m address),
         Event.ES_DIVerify (P.GetTMD (partitionOffset m address))
          (P.ES_DIVerify (P.GetTMD (partitionOffset m address)))] := by
  rcases h1 with h1 | h1 <;> rcases h2 with h2 | h2 <;>
    simp [h1, h2, withoutAsserts, withoutAsserts_append]

/-- C13 fails as stated: in a debug build whose assertion prompt is answered no,
`openRequest`, with both optional buffers unset, is handled to the end, while
`ticketRequest`, which differs from it only in `in_vectors[1]` and
`in_vectors[2]`, is stopped by the assertion: the results are not identical. -/
theorem optional_fields_counterexample :
    ticketRequest.address = openRequest.address ∧
    ticketRequest.request = openRequest.request ∧
    ticketRequest.io_vectors = openRequest.io_vectors ∧
    ticketRequest.in_vectors[0]? = openRequest.in_vectors[0]? ∧
    ticketRequest.in_vectors.length = openRequest.in_vectors.length ∧
    (IOCtlV strictPlatform (State.init exampleMemory) openRequest).map
      (fun r => (changePartitions r.1.trace, verifiedBlobs r.1.trace, r.2))
      = some ([0x10], [[0x10, 0xAB, 0xCD]], IPCCommandResult.DefaultReply) ∧
    (IOCtlV strictPlatform (State.init exampleMemory) ticketRequest).map
      (fun r => (changePartitions r.1.trace, verifiedBlobs r.1.trace, r.2)) = none := by
  decide

/-- C13, amended: two `DVDLowOpenPartition` requests that agree on everything
but the descriptors `in_vectors[1]` and `in_vectors[2]`, handled from the same
state and neither stopped by a failed debug assertion, both complete with the
default reply; the offset passed to `ChangePartition`, the resulting guest
memory, the blob forwarded for verification and the return value 1 are
identical, and the calls made differ at most by reports of the debug
assertion. -/
theorem optional_fields_irrelevant (P : Platform) (s : State) (r1 r2 : IOSIOCtlVRequest)
    (in0 io0 : IOVector)
    (h_op1 : r1.request = P.DVDLowOpenPartition) (h_op2 : r2.request = P.DVDLowOpenPartition)
    (h_address : r1.address = r2.address) (h_io : r1.io_vectors = r2.io_vectors)
    (h_in1 : r1.in_vectors[0]? = some in0) (h_in2 : r2.in_vectors[0]? = some in0)
    (h_len1 : 3 ≤ r1.in_vectors.length) (h_len2 : 3 ≤ r2.in_vectors.length)
    (h_io0 : r1.io_vectors[0]? = some io0)
    (h_pass1 : assertionsPass P r1) (h_pass2 : assertionsPass P r2) :
    ∃ s1 s2, IOCtlV P s r1 = some (s1, IPCCommandResult.DefaultReply) ∧
      IOCtlV P s r2 = some (s2, IPCCommandResult.DefaultReply) ∧
      changePartitions s1.trace = changePartitions s2.trace ∧
      s1.memory = s2.memory ∧
      verifiedBlobs s1.trace = verifiedBlobs s2.trace ∧
      Read_U32 s1.memory (returnValueAddress P r1.address) = 1 ∧
      Read_U32 s2.memory (returnValueAddress P r2.address) = 1 ∧
      s1.m_commands_to_execute = s2.m_commands_to_execute ∧
      withoutAsserts s1.trace = withoutAsserts s2.trace := by
  obtain ⟨e1, e2, hc1, hc2, hrun1⟩ :=
    IOCtlV_open P s r1 in0 io0 h_op1 h_in1 (fun _ => h_len1) h_io0 h_pass1
  obtain ⟨f1, f2, hd1, hd2, hrun2⟩ :=
    IOCtlV_open P s r2 in0 io0 h_op2 h_in2 (fun _ => h_len2) (h_io ▸ h_io0) h_pass2
  have hone : toU32 1 = 1 := by decide
  refine ⟨_, _, hrun1, hrun2, ?_, ?_, ?_, ?_, ?_, rfl, ?_⟩
  · simp only [List.append_assoc s.trace, changePartitions_append s.trace]
    rw [(open_calls P _ _ e1 e2 hc1 hc2).1, (open_calls P _ _ f1 f2 hd1 hd2).1, h_io]
  · simp only [h_io, h_address]
  · simp only [List.append_assoc s.trace, verifiedBlobs_append s.trace]
    rw [(open_calls P _ _ e1 e2 hc1 hc2).2.1, (open_calls P _ _ f1 f2 hd1 hd2).2.1, h_io]
  · exact (Read_U32_SetReturnValue P _ _ _).trans hone
  · exact (Read_U32_SetReturnValue P _ _ _).trans hone
  · rw [withoutAsserts_open P _ _ _ e1 e2 hc1 hc2, withoutAsserts_open P _ _ _ f1 f2 hd1 hd2,
      h_io]

theorem dbgAssertUnset_bound (P : Platform) (in_vectors : List IOVector) (i : Nat)
    (message : String) (e : List Event) (h : dbgAssertUnset P in_vectors i message = some e)
    (hd : P.debug = true) : i < in_vectors.length := by
  unfold dbgAssertUnset at h
  rw [if_pos hd] at h
  by_contra hlt
  rw [List.getElem?_eq_none (by omega)] at h
  simp at h

theorem getElem?_zero_of_pos (vectors : List IOVector) (h : 0 < vectors.length) :
    ∃ vector, vectors[0]? = some vector := by
  cases vectors with
  | nil => simp at h
  | cons head tail => exact ⟨head, by simp⟩

/-- Handling completes exactly when every vector access is in bounds and no
failed assertion stops it. -/
theorem IOCtlV_isSome_iff (P : Platform) (s : State) (request : IOSIOCtlVRequest) :
    (∃ r, IOCtlV P s request = some r) ↔
      vectorsInBounds P request ∧
      (request.request = P.DVDLowOpenPartition → assertionsPass P request) := by
  constructor
  · rintro ⟨r, hr⟩
    by_cases h_op : request.request = P.DVDLowOpenPartition
    · simp only [IOCtlV, h_op, if_true, openPartition, Option.bind_eq_bind,
        Option.bind_eq_some] at hr
      obtain ⟨⟨s2, rv⟩, ⟨e1, he1, e2, he2, in0, hin0, io0, hio0, -⟩, -⟩ := hr
      refine ⟨fun _ => ⟨?_, fun hd => dbgAssertUnset_bound P _ 2 _ e2 he2 hd, ?_⟩,
        fun _ => ⟨dbgAssertUnset_passes P _ 1 _ e1 he1, dbgAssertUnset_passes P _ 2 _ e2 he2⟩⟩
      · by_contra hlt
        rw [List.getElem?_eq_none (by omega)] at hin0
        simp at hin0
      · by_contra hlt
        rw [List.getElem?_eq_none (by omega)] at hio0
        simp at hio0
    · exact ⟨fun h => absurd h h_op, fun h => absurd h h_op⟩
  · rintro ⟨h, hp⟩
    by_cases h_op : request.request = P.DVDLowOpenPartition
    · obtain ⟨h0, hd, hio⟩ := h h_op
      obtain ⟨in0, h_in0⟩ := getElem?_zero_of_pos _ h0
      obtain ⟨io0, h_io0⟩ := getElem?_zero_of_pos _ hio
      obtain ⟨e1, e2, -, -, hrun⟩ := IOCtlV_open P s request in0 io0 h_op h_in0
        (fun hdb => hd hdb) h_io0 (hp h_op)
      exact ⟨_, hrun⟩
    · exact ⟨_, IOCtlV_unknown_eq P s request h_op⟩

/-- C14 fails as stated: in a debug build whose assertion prompt is answered no,
handling of `ticketRequest` is stopped by the assertion, so `IOCtlV` returns no
reply at all, the default immediate reply included. -/
theorem independent_of_queue_counterexample :
    (IOCtlV strictPlatform
      { m_commands_to_execute := [0x2000], memory := exampleMemory, trace := [] }
      ticketRequest).map (fun r => r.2) = none := by
  decide

/-- C14, amended: for every request and every queue state, `IOCtlV` completes
whenever its vector accesses are in bounds and no failed debug assertion stops
it, and whenever it completes it returns the default immediate reply, leaves
the command queue unchanged, and the calls it adds contain no `ExecuteCommand`
and no `EnqueueReply`. -/
theorem IOCtlV_independent_of_queue (P : Platform) (s : State) (request : IOSIOCtlVRequest) :
    (vectorsInBounds P request →
      (request.request = P.DVDLowOpenPartition → assertionsPass P request) →
      ∃ s', IOCtlV P s request = some (s', IPCCommandResult.DefaultReply)) ∧
    (∀ s' r, IOCtlV P s request = some (s', r) →
      r = IPCCommandResult.DefaultReply ∧
      s'.m_commands_to_execute = s.m_commands_to_execute ∧
      ∃ new, s'.trace = s.trace ++ new ∧ executeCommands new = [] ∧
        repliedAddresses new = []) := by
  have key : ∀ s' r, IOCtlV P s request = some (s', r) →
      r = IPCCommandResult.DefaultReply ∧
      s'.m_commands_to_execute = s.m_commands_to_execute ∧
      ∃ new, s'.trace = s.trace ++ new ∧ executeCommands new = [] ∧
        repliedAddresses new = [] := by
    intro s' r hr
    obtain ⟨hb, hp⟩ := (IOCtlV_isSome_iff P s request).mp ⟨_, hr⟩
    by_cases h_op : request.request = P.DVDLowOpenPartition
    · obtain ⟨h0, hd, hio⟩ := hb h_op
      obtain ⟨in0, h_in0⟩ := getElem?_zero_of_pos _ h0
      obtain ⟨io0, h_io0⟩ := getElem?_zero_of_pos _ hio
      obtain ⟨e1, e2, hc1, hc2, hrun⟩ := IOCtlV_open P s request in0 io0 h_op h_in0
        (fun hdb => hd hdb) h_io0 (hp h_op)
      rw [hrun] at hr
      obtain ⟨rfl, rfl⟩ := Prod.mk.inj (Option.some.inj hr)
      obtain ⟨-, -, hex, hrep⟩ := open_calls P (zeroVectors s.memory request.io_vectors)
        in0.address e1 e2 hc1 hc2
      exact ⟨rfl, rfl, _, by simp only [List.append_assoc], hex, hrep⟩
    · rw [IOCtlV_unknown_eq P s request h_op] at hr
      obtain ⟨rfl, rfl⟩ := Prod.mk.inj (Option.some.inj hr)
      exact ⟨rfl, rfl, [Event.DumpUnknown], rfl, rfl, rfl⟩
  refine ⟨fun hb hp => ?_, key⟩
  obtain ⟨⟨s', r⟩, hr⟩ := (IOCtlV_isSome_iff P s request).mpr ⟨hb, hp⟩
  obtain ⟨rfl, -⟩ := key s' r hr
  exact ⟨s', hr⟩

/-- C19 fails as stated: in a debug build whose assertion prompt is answered no,
`ticketRequest` has three input descriptors and one output descriptor, yet
handling is stopped by the assertion and does not complete. -/
theorem indexing_counterexample :
    ticketRequest.request = strictPlatform.DVDLowOpenPartition ∧
    3 ≤ ticketRequest.in_vectors.length ∧ 1 ≤ ticketRequest.io_vectors.length ∧
    (IOCtlV strictPlatform (State.init exampleMemory) ticketRequest).isSome = false := by
  decide

/-- C19, amended: a `DVDLowOpenPartition` request with at least three input
descriptors and at least one output descriptor has `in_vectors[0]`,
`in_vectors[1]`, `in_vectors[2]` and `io_vectors[0]` in bounds, and handling
completes, with return value 1, exactly when no failed debug assertion stops
it; for every other opcode handling completes for any number of input and
output descriptors, zero included, since no vector is indexed. -/
theorem IOCtlV_indexing (P : Platform) (s : State) (request : IOSIOCtlVRequest) :
    (request.request = P.DVDLowOpenPartition → 3 ≤ request.in_vectors.length →
      1 ≤ request.io_vectors.length →
      (request.in_vectors[0]?).isSome ∧ (request.in_vectors[1]?).isSome ∧
      (request.in_vectors[2]?).isSome ∧ (request.io_vectors[0]?).isSome ∧
      vectorsInBounds P request ∧
      ((∃ s', IOCtlV P s request = some (s', IPCCommandResult.DefaultReply) ∧
          Read_U32 s'.memory (returnValueAddress P request.address) = 1)
        ↔ assertionsPass P request)) ∧
    (request.request ≠ P.DVDLowOpenPartition →
      vectorsInBounds P request ∧
      ∃ s', IOCtlV P s request = some (s', IPCCommandResult.DefaultReply) ∧
        Read_U32 s'.memory (returnValueAddress P request.address) = toU32 P.IPC_SUCCESS) := by
  constructor
  · intro h_op h_in h_io
    have hb : vectorsInBounds P request := fun _ => ⟨by omega, fun _ => by omega, by omega⟩
    obtain ⟨in0, h_in0⟩ := getElem?_zero_of_pos request.in_vectors (by omega)
    obtain ⟨io0, h_io0⟩ := getElem?_zero_of_pos request.io_vectors (by omega)
    have hone : toU32 1 = 1 := by decide
    refine ⟨?_, ?_, ?_, ?_, hb, ?_⟩
    · rw [List.getElem?_eq_getElem (by omega)]; rfl
    · rw [List.getElem?_eq_getElem (by omega)]; rfl
    · rw [List.getElem?_eq_getElem (by omega)]; rfl
    · rw [List.getElem?_eq_getElem (by omega)]; rfl
    · constructor
      · rintro ⟨s', hr, -⟩
        exact ((IOCtlV_isSome_iff P s request).mp ⟨_, hr⟩).2 h_op
      · intro h_pass
        obtain ⟨e1, e2, -, -, hrun⟩ := IOCtlV_open P s request in0 io0 h_op h_in0
          (fun _ => h_in) h_io0 h_pass
        exact ⟨_, hrun, (Read_U32_SetReturnValue P _ _ _).trans hone⟩
  · intro h_op
    exact ⟨fun h => absurd h h_op, _, IOCtlV_unknown_eq P s request h_op,
      Read_U32_SetReturnValue P _ _ _⟩

/-! ## The extent of the blob copy -/

theorem CopyToEmu_apply (m : Mem) (address : Nat) (data : List Nat) (a : Nat) :
    CopyToEmu m address data a
      = if address ≤ a ∧ a < address + data.length then data.getD (a - address) 0 else m a :=
  rfl

/-- C18 fails as stated: in a debug build whose assertion prompt is answered no,
handling of `ticketRequest` is stopped by the assertion before `CopyToEmu`: no
byte of the blob is copied to `io_vectors[0].address`. -/
theorem blob_copy_counterexample :
    ticketRequest.request = strictPlatform.DVDLowOpenPartition ∧
    ticketRequest.io_vectors[0]? = some { address := 0x400, size := 0x20 } ∧
    (IOCtlV strictPlatform (State.init exampleMemory) ticketRequest).map
      (fun r => (r.1.memory 0x400, r.1.memory 0x401, r.1.memory 0x402)) = none := by
  decide

/-- C18, amended: on the open-partition path, when the indexed descriptors
exist and no failed debug assertion stops handling, the bytes overwritten by
the copy are exactly the `len(blob)` bytes from `io_vectors[0].address` on,
whatever `io_vectors[0].size` is; when `len(blob) <= io_vectors[0].size`, guest
memory outside all output ranges and outside the result field is unchanged;
and for some request and blob longer than the first output buffer a byte past
the end of that buffer, outside every output range and the result field, is
modified. -/
theorem blob_copy_sized_by_blob (P : Platform) (s : State) (request : IOSIOCtlVRequest)
    (in0 io0 : IOVector)
    (h_op : request.request = P.DVDLowOpenPartition)
    (h_in0 : request.in_vectors[0]? = some in0)
    (h_dbg : P.debug = true → 3 ≤ request.in_vectors.length)
    (h_io0 : request.io_vectors[0]? = some io0)
    (h_pass : assertionsPass P request) :
    (∃ s' blob, IOCtlV P s request = some (s', IPCCommandResult.DefaultReply) ∧
      blob = P.GetTMD (partitionOffset (zeroVectors s.memory request.io_vectors) in0.address) ∧
      (∀ a, ¬ inResultField P request.address a →
        s'.memory a
          = if io0.address ≤ a ∧ a < io0.address + blob.length
            then blob.getD (a - io0.address) 0
            else zeroVectors s.memory request.io_vectors a) ∧
      (blob.length ≤ io0.size →
        ∀ a, ¬ inVectors request.io_vectors a → ¬ inResultField P request.address a →
          s'.memory a = s.memory a)) ∧
    (∃ (P' : Platform) (s0 : State) (r' : IOSIOCtlVRequest) (io0' : IOVector) (a : Nat),
      r'.request = P'.DVDLowOpenPartition ∧ r'.io_vectors[0]? = some io0' ∧
      (IOCtlV P' s0 r').map (fun r => (verifiedBlobs r.1.trace).map List.length)
        = some [io0'.size + 1] ∧
      io0'.address + io0'.size ≤ a ∧ ¬ inVectors r'.io_vectors a ∧
      ¬ inResultField P' r'.address a ∧
      (IOCtlV P' s0 r').map (fun r => r.1.memory a) = some 0xCD ∧ s0.memory a = 0xFF) := by
  constructor
  · obtain ⟨e1, e2, -, -, hrun⟩ := IOCtlV_open P s request in0 io0 h_op h_in0 h_dbg h_io0 h_pass
    refine ⟨_, _, hrun, rfl, ?_, ?_⟩
    · intro a hr
      show SetReturnValue P _ request.address 1 a = _
      rw [SetReturnValue_outside _ _ _ _ _ hr, CopyToEmu_apply]
    · intro hlen a hv hr
      show SetReturnValue P _ request.address 1 a = _
      rw [SetReturnValue_outside _ _ _ _ _ hr, CopyToEmu_outside, zeroVectors_outside _ _ _ hv]
      intro hin
      exact hv ⟨io0, mem_of_getElem?_zero _ _ h_io0, hin.1, by omega⟩
  · exact ⟨examplePlatform, State.init exampleMemory, overflowRequest,
      { address := 0x400, size := 2 }, 0x402,
      by decide, by decide, by decide, by decide, by decide, by decide, by decide, by decide⟩

/-! ## State persistence -/

theorem DoEachElement_write (stream xs : List Nat) :
    PointerWrap.DoEachElement { mode := PointerWrapMode.MODE_WRITE, stream := stream } xs
      = some ({ mode := PointerWrapMode.MODE_WRITE, stream := stream ++ xs }, xs) := by
  induction xs generalizing stream with
  | nil => simp [PointerWrap.DoEachElement]
  | cons x xs ih => simp [PointerWrap.DoEachElement, PointerWrap.DoU32, ih]

theorem DoEachElement_read (ys rest xs : List Nat) (h : xs.length = ys.length) :
    PointerWrap.DoEachElement { mode := PointerWrapMode.MODE_READ, stream := ys ++ rest } xs
      = some ({ mode := PointerWrapMode.MODE_READ, stream := rest }, ys) := by
  induction xs generalizing ys with
  | nil =>
    have : ys = [] := List.length_eq_zero.mp h.symm
    simp [PointerWrap.DoEachElement, this]
  | cons x xs ih =>
    cases ys with
    | nil => simp at h
    | cons y ys =>
      have hl : xs.length = ys.length := by simpa using h
      simp [PointerWrap.DoEachElement, PointerWrap.DoU32, ih ys hl]

theorem resize_length (xs : List Nat) (size : Nat) : (resize xs size).length = size := by
  simp [resize]
  omega

theorem resize_self (xs : List Nat) : resize xs xs.length = xs := by
  simp [resize]

/-- C15: serializing the device state with `DoState` and restoring the stream
with `DoState` into any device reproduces the same ordered sequence of pending
guest addresses, and consumes the stream exactly. -/
theorem DoState_round_trip (shared shared0 : List Nat) (s s0 : State)
    (h : shared0.length = shared.length) :
    ∃ stream,
      DoState { mode := PointerWrapMode.MODE_WRITE, stream := [] } shared s
        = some ({ mode := PointerWrapMode.MODE_WRITE, stream := stream }, shared, s) ∧
      DoState { mode := PointerWrapMode.MODE_READ, stream := stream } shared0 s0
        = some ({ mode := PointerWrapMode.MODE_READ, stream := [] }, shared,
            { s0 with m_commands_to_execute := s.m_commands_to_execute }) := by
  refine ⟨shared ++ (s.m_commands_to_execute.length :: s.m_commands_to_execute), ?_, ?_⟩
  · simp [DoState, DoStateShared, DoEachElement_write, PointerWrap.DoDeque, PointerWrap.DoU32,
      resize_self]
  · have h1 := DoEachElement_read shared
      (s.m_commands_to_execute.length :: s.m_commands_to_execute) shared0 h
    have h2 := DoEachElement_read s.m_commands_to_execute []
      (resize s0.m_commands_to_execute s.m_commands_to_execute.length) (resize_length _ _)
    rw [List.append_nil] at h2
    simp [DoState, DoStateShared, h1, PointerWrap.DoDeque, PointerWrap.DoU32, h2]

/-! ## Order of starts -/

/-- The `ExecuteCommand` calls added by one call are those of the requests it
starts. -/
theorem step_executeCommands (P : Platform) (s : State) (c : Call) :
    executeCommands (step P s c).trace
      = executeCommands s.trace ++ startedCommands (startsOf P s c) := by
  obtain ⟨q, m, t⟩ := s
  cases c with
  | IOCtl request =>
    cases q <;>
      simp [step, IOCtl, StartIOCtl, startsOf, startedCommands, executeCommands_append,
        executeCommandFor, executeCommands]
  | FinishIOCtl v =>
    rcases q with _ | ⟨a, _ | ⟨b, rest⟩⟩ <;>
      simp [step, FinishIOCtl, StartIOCtl, startsOf, startedCommands, executeCommands_append,
        executeCommandFor, executeCommands, IOSIOCtlRequest.ofAddress]
  | Guest memory => simp [step, startsOf, startedCommands]

theorem run_executeCommands (P : Platform) (s : State) (calls : List Call) :
    executeCommands (run P s calls).trace
      = executeCommands s.trace ++ startedCommands (starts P s calls) := by
  induction calls generalizing s with
  | nil => simp [run, starts, startedCommands]
  | cons c calls ih =>
    rw [run_cons, ih, step_executeCommands]
    simp [starts, startedCommands]

/-- Started addresses followed by the waiting entries of the queue are the
addresses submitted so far. -/
theorem step_started (P : Platform) (s : State) (c : Call) (pre sub : List Nat)
    (h : pre ++ s.m_commands_to_execute.tail = sub) :
    (pre ++ startedAddresses (startsOf P s c)) ++ (step P s c).m_commands_to_execute.tail
      = sub ++ submitted [c] := by
  obtain ⟨q, m, t⟩ := s
  subst h
  cases c with
  | IOCtl request =>
    cases q <;>
      simp [step, IOCtl, StartIOCtl, startsOf, startedAddresses, submitted]
  | FinishIOCtl v =>
    rcases q with _ | ⟨a, _ | ⟨b, rest⟩⟩ <;>
      simp [step, FinishIOCtl, StartIOCtl, startsOf, startedAddresses, submitted,
        IOSIOCtlRequest.ofAddress]
  | Guest memory => simp [step, startsOf, startedAddresses, submitted]

theorem run_started (P : Platform) (s : State) (calls : List Call) (pre sub : List Nat)
    (h : pre ++ s.m_commands_to_execute.tail = sub) :
    (pre ++ startedAddresses (starts P s calls)) ++ (run P s calls).m_commands_to_execute.tail
      = sub ++ submitted calls := by
  induction calls generalizing s pre sub with
  | nil => simpa [run, starts, startedAddresses, submitted] using h
  | cons c calls ih =>
    have hs := step_started P s c pre sub h
    have := ih (step P s c) _ _ hs
    rw [run_cons, submitted_cons c calls]
    simpa [starts, startedAddresses, List.append_assoc] using this

/-- C16: for every sequence of calls from the empty queue, the `ExecuteCommand`
calls issued are exactly those of the started requests; the addresses of the
started requests are, in order, a prefix of the submitted addresses, so the
k-th execution is for the k-th submission and none is started twice; and the
number of `ExecuteCommand` calls never exceeds the number of submissions. -/
theorem starts_in_submission_order (P : Platform) (memory : Mem) (calls : List Call) :
    executeCommands (run P (State.init memory) calls).trace
      = startedCommands (starts P (State.init memory) calls) ∧
    startedAddresses (starts P (State.init memory) calls) <+: submitted calls ∧
    startedAddresses (starts P (State.init memory) calls)
      = (submitted calls).take (executeCommands (run P (State.init memory) calls).trace).length ∧
    (executeCommands (run P (State.init memory) calls).trace).length
      ≤ (submitted calls).length := by
  have he := run_executeCommands P (State.init memory) calls
  have hs := run_started P (State.init memory) calls [] [] rfl
  simp only [State.init, executeCommands, List.nil_append] at he hs
  have hlen : (executeCommands (run P (State.init memory) calls).trace).length
      = (startedAddresses (starts P (State.init memory) calls)).length := by
    simp only [State.init]
    rw [he]
    simp [startedCommands, startedAddresses]
  have hpre : startedAddresses (starts P (State.init memory) calls) <+: submitted calls :=
    ⟨_, hs⟩
  refine ⟨he, hpre, ?_, ?_⟩
  · rw [hlen]
    exact (List.prefix_iff_eq_take.mp hpre)
  · rw [hlen]
    exact hpre.length_le

/-! ## When a queued request is decoded -/

theorem Read_U32_agree (m m' : Mem) (address : Nat)
    (h : ∀ x ∈ wordBytes address, m' x = m x) :
    Read_U32 m' address = Read_U32 m address := by
  unfold Read_U32
  rw [h address (by simp [wordBytes]), h (address + 1) (by simp [wordBytes]),
    h (address + 2) (by simp [wordBytes]), h (address + 3) (by simp [wordBytes])]

/-- Two memories that agree on the bytes decoded for a request give the same
`ExecuteCommand` call for it. -/
theorem executeCommandFor_agree (P : Platform) (m m' : Mem) (address : Nat)
    (h : ∀ x ∈ decodedBytes P m address, m' x = m x) :
    executeCommandFor m' (IOSIOCtlRequest.ofAddress P m' address)
      = executeCommandFor m (IOSIOCtlRequest.ofAddress P m address) := by
  have hin : Read_U32 m' (u32 (address + P.buffer_in))
      = Read_U32 m (u32 (address + P.buffer_in)) :=
    Read_U32_agree m m' _ (fun x hx => h x (by simp [decodedBytes, hx]))
  have hout : Read_U32 m' (u32 (address + P.buffer_out))
      = Read_U32 m (u32 (address + P.buffer_out)) :=
    Read_U32_agree m m' _ (fun x hx => h x (by simp [decodedBytes, hx]))
  have hsize : Read_U32 m' (u32 (address + P.buffer_out_size))
      = Read_U32 m (u32 (address + P.buffer_out_size)) :=
    Read_U32_agree m m' _ (fun x hx => h x (by simp [decodedBytes, hx]))
  have h0 : Read_U32 m' (Read_U32 m (u32 (address + P.buffer_in)))
      = Read_U32 m (Read_U32 m (u32 (address + P.buffer_in))) :=
    Read_U32_agree m m' _ (fun x hx => h x (by simp [decodedBytes, hx]))
  have h1 : Read_U32 m' (u32 (Read_U32 m (u32 (address + P.buffer_in)) + 4))
      = Read_U32 m (u32 (Read_U32 m (u32 (address + P.buffer_in)) + 4)) :=
    Read_U32_agree m m' _ (fun x hx => h x (by simp [decodedBytes, hx]))
  have h2 : Read_U32 m' (u32 (Read_U32 m (u32 (address + P.buffer_in)) + 8))
      = Read_U32 m (u32 (Read_U32 m (u32 (address + P.buffer_in)) + 8)) :=
    Read_U32_agree m m' _ (fun x hx => h x (by simp [decodedBytes, hx]))
  simp only [executeCommandFor, IOSIOCtlRequest.ofAddress, hin, hout, hsize, h0, h1, h2]

/-- C17 fails as stated in its last clause: with guest memory left alone between
submission and start, the request at 0xFEC, whose descriptor field `buffer_out`
lies at 0x1004, is submitted while the request at 0x1000 is active; when the
latter completes with outcome 1, its return value is written at 0x1004 and the
queued request is started with the output address 1, whereas an immediate start
at submission would have passed the output address 0xFFFFFFFF read then. -/
theorem start_counterexample :
    executeCommands (run examplePlatform (State.init exampleMemory)
        [Call.IOCtl (IOSIOCtlRequest.ofAddress examplePlatform exampleMemory 0x1000),
         Call.IOCtl (IOSIOCtlRequest.ofAddress examplePlatform exampleMemory 0xFEC),
         Call.FinishIOCtl 1]).trace
      = [Event.ExecuteCommand 0xFFFFFFFF 0xFFFFFFFF 0xFFFFFFFF 0xFFFFFFFF 0xFFFFFFFF true,
         Event.ExecuteCommand 0xFFFFFFFF 0xFFFFFFFF 0xFFFFFFFF 1 0xFFFFFFFF true] ∧
    executeCommandFor exampleMemory
        (IOSIOCtlRequest.ofAddress examplePlatform exampleMemory 0xFEC)
      = Event.ExecuteCommand 0xFFFFFFFF 0xFFFFFFFF 0xFFFFFFFF 0xFFFFFFFF 0xFFFFFFFF true := by
  decide

/-- C17, amended: a request submitted while the queue is non-empty is not
started by `IOCtl`; when its predecessor `p` completes, the `ExecuteCommand`
call issued carries the three words, output address and size decoded from the
descriptor and input buffer in guest memory as it stands in that `FinishIOCtl`,
after the return value of `p` is written. If guest memory when `FinishIOCtl` is
called equals the memory at submission, the result field of `p` contains none
of the bytes decoded for the request, and the submitted request object is the
one resolved from its descriptor, the call equals the one an immediate start
would have issued; and in some run where memory changes in between, it
differs. -/
theorem start_decodes_at_completion (P : Platform) (s : State) (r : IOSIOCtlRequest)
    (mid : List Call) (p : Nat) (post : List Nat) (v : DIInterruptType)
    (hq : s.m_commands_to_execute ≠ [])
    (hmid : (run P (IOCtl s r).1 mid).m_commands_to_execute = p :: r.address :: post) :
    (IOCtl s r).1.trace = s.trace ∧
    (FinishIOCtl P (run P (IOCtl s r).1 mid) v).trace
      = (run P (IOCtl s r).1 mid).trace ++
        [Event.EnqueueReply p (toU32 v),
         executeCommandFor (SetReturnValue P (run P (IOCtl s r).1 mid).memory p v)
          (IOSIOCtlRequest.ofAddress P
            (SetReturnValue P (run P (IOCtl s r).1 mid).memory p v) r.address)] ∧
    executeCommandFor (SetReturnValue P (run P (IOCtl s r).1 mid).memory p v)
        (IOSIOCtlRequest.ofAddress P
          (SetReturnValue P (run P (IOCtl s r).1 mid).memory p v) r.address)
      = Event.ExecuteCommand
          (Read_U32 (SetReturnValue P (run P (IOCtl s r).1 mid).memory p v)
            (Read_U32 (SetReturnValue P (run P (IOCtl s r).1 mid).memory p v)
              (u32 (r.address + P.buffer_in))))
          (Read_U32 (SetReturnValue P (run P (IOCtl s r).1 mid).memory p v)
            (u32 (Read_U32 (SetReturnValue P (run P (IOCtl s r).1 mid).memory p v)
              (u32 (r.address + P.buffer_in)) + 4)))
          (Read_U32 (SetReturnValue P (run P (IOCtl s r).1 mid).memory p v)
            (u32 (Read_U32 (SetReturnValue P (run P (IOCtl s r).1 mid).memory p v)
              (u32 (r.address + P.buffer_in)) + 8)))
          (Read_U32 (SetReturnValue P (run P (IOCtl s r).1 mid).memory p v)
            (u32 (r.address + P.buffer_out)))
          (Read_U32 (SetReturnValue P (run P (IOCtl s r).1 mid).memory p v)
            (u32 (r.address + P.buffer_out_size)))
          true ∧
    ((∀ x, (run P (IOCtl s r).1 mid).memory x = s.memory x) →
      (∀ x ∈ decodedBytes P s.memory r.address, ¬ inResultField P p x) →
      r = IOSIOCtlRequest.ofAddress P s.memory r.address →
      executeCommandFor (SetReturnValue P (run P (IOCtl s r).1 mid).memory p v)
          (IOSIOCtlRequest.ofAddress P
            (SetReturnValue P (run P (IOCtl s r).1 mid).memory p v) r.address)
        = executeCommandFor s.memory r) ∧
    (∃ (P' : Platform) (m0 m1 : Mem) (p' a' : Nat) (v' : DIInterruptType),
      executeCommands
          (run P' { m_commands_to_execute := [p'], memory := m0, trace := [] }
            [Call.IOCtl (IOSIOCtlRequest.ofAddress P' m0 a'), Call.Guest m1,
             Call.FinishIOCtl v']).trace
        ≠ [executeCommandFor m0 (IOSIOCtlRequest.ofAddress P' m0 a')]) := by
  refine ⟨?_, ?_, rfl, ?_, ?_⟩
  · cases hs : s.m_commands_to_execute with
    | nil => exact absurd hs hq
    | cons a rest => simp [IOCtl, hs]
  · generalize run P (IOCtl s r).1 mid = sf at hmid ⊢
    obtain ⟨q, m, t⟩ := sf
    simp only at hmid
    subst hmid
    simp [FinishIOCtl, StartIOCtl, IOSIOCtlRequest.ofAddress, Read_U32_SetReturnValue]
  · intro hmem hdisj hr
    rw [executeCommandFor_agree P s.memory _ r.address
      (fun x hx => (SetReturnValue_outside P _ p v x (hdisj x hx)).trans (hmem x)), ← hr]
  · exact ⟨examplePlatform, exampleMemory, fun _ => 0, 0x1000, 0x2000, 1, by decide⟩

/-! ## Evaluation of the vectorized path, persistence and starts -/

/-- The request `openRequest`: the three bytes of the blob are delivered at
0x400 and the next byte of the buffer is zero. -/
theorem IOCtlV_blob_delivery_witness :
    openRequest.request = examplePlatform.DVDLowOpenPartition ∧
    openRequest.in_vectors[0]? = some { address := 0x300, size := 8 } ∧
    (examplePlatform.debug = true → 3 ≤ openRequest.in_vectors.length) ∧
    openRequest.io_vectors[0]? = some { address := 0x400, size := 0x20 } ∧
    assertionsPass examplePlatform openRequest ∧
    ∃ s' new, IOCtlV examplePlatform (State.init exampleMemory) openRequest
        = some (s', IPCCommandResult.DefaultReply) ∧
      s'.trace = (State.init exampleMemory).trace ++ new ∧
      verifiedBlobs new = [[0x10, 0xAB, 0xCD]] ∧
      s'.memory 0x400 = 0x10 ∧ s'.memory 0x401 = 0xAB ∧ s'.memory 0x402 = 0xCD ∧
      s'.memory 0x403 = 0 := by
  refine ⟨by decide, by decide, by decide, by decide, by decide, ?_⟩
  obtain ⟨s', new, blob, h1, h2, h3, -, h5, h6, h7⟩ :=
    IOCtlV_blob_delivery examplePlatform (State.init exampleMemory) openRequest
      { address := 0x300, size := 8 } { address := 0x400, size := 0x20 }
      (by decide) (by decide) (by decide) (by decide) (by decide)
  have hb : blob = [0x10, 0xAB, 0xCD] := h3.trans (by decide)
  rw [hb] at h5 h6 h7
  exact ⟨s', new, h1, h2, h5, h6 0 (by decide) (by decide), h6 1 (by decide) (by decide),
    h6 2 (by decide) (by decide), h7 0x403 (by decide) (by decide) (by decide)⟩

/-- The request `ticketRequest` in a debug build whose assertion prompts are
answered yes completes with 1 in its result field. -/
theorem IOCtlV_return_value_witness :
    (ticketRequest.request = examplePlatform.DVDLowOpenPartition →
      (∃ in0, ticketRequest.in_vectors[0]? = some in0) ∧
      (examplePlatform.debug = true → 3 ≤ ticketRequest.in_vectors.length) ∧
      (∃ io0, ticketRequest.io_vectors[0]? = some io0) ∧
      assertionsPass examplePlatform ticketRequest) ∧
    ∃ s', IOCtlV examplePlatform (State.init exampleMemory) ticketRequest
        = some (s', IPCCommandResult.DefaultReply) ∧
      Read_U32 s'.memory (returnValueAddress examplePlatform ticketRequest.address) = 1 :=
  ⟨fun _ => ⟨⟨{ address := 0x300, size := 8 }, by decide⟩, by decide,
      ⟨{ address := 0x400, size := 0x20 }, by decide⟩, by decide⟩,
    match IOCtlV_return_value examplePlatform (State.init exampleMemory) ticketRequest
      (fun _ => ⟨⟨{ address := 0x300, size := 8 }, by decide⟩, by decide,
        ⟨{ address := 0x400, size := 0x20 }, by decide⟩, by decide⟩) with
    | ⟨s', h1, h2, _⟩ => ⟨s', h1, h2.trans (by decide)⟩⟩

/-- The requests `ticketRequest` and `openRequest` differ only in the optional
buffers and, with the assertion prompts answered yes, give the same memory and
the same calls up to assertion reports. -/
theorem optional_fields_irrelevant_witness :
    ticketRequest.request = examplePlatform.DVDLowOpenPartition ∧
    openRequest.request = examplePlatform.DVDLowOpenPartition ∧
    ticketRequest.address = openRequest.address ∧
    ticketRequest.io_vectors = openRequest.io_vectors ∧
    ticketRequest.in_vectors[0]? = some { address := 0x300, size := 8 } ∧
    openRequest.in_vectors[0]? = some { address := 0x300, size := 8 } ∧
    3 ≤ ticketRequest.in_vectors.length ∧ 3 ≤ openRequest.in_vectors.length ∧
    ticketRequest.io_vectors[0]? = some { address := 0x400, size := 0x20 } ∧
    assertionsPass examplePlatform ticketRequest ∧
    assertionsPass examplePlatform openRequest ∧
    ∃ s1 s2, IOCtlV examplePlatform (State.init exampleMemory) ticketRequest
        = some (s1, IPCCommandResult.DefaultReply) ∧
      IOCtlV examplePlatform (State.init exampleMemory) openRequest
        = some (s2, IPCCommandResult.DefaultReply) ∧
      changePartitions s1.trace = changePartitions s2.trace ∧
      s1.memory = s2.memory ∧
      withoutAsserts s1.trace = withoutAsserts s2.trace :=
  ⟨by decide, by decide, by decide, by decide, by decide, by decide, by decide, by decide,
    by decide, by decide, by decide,
    match optional_fields_irrelevant examplePlatform (State.init exampleMemory) ticketRequest
      openRequest { address := 0x300, size := 8 } { address := 0x400, size := 0x20 }
      (by decide) (by decide) (by decide) (by decide) (by decide) (by decide) (by decide)
      (by decide) (by decide) (by decide) (by decide) with
    | ⟨s1, s2, h1, h2, h3, h4, _, _, _, _, h9⟩ => ⟨s1, s2, h1, h2, h3, h4, h9⟩⟩

/-- The request `openRequest` handled while a command is queued. -/
theorem IOCtlV_independent_of_queue_witness :
    vectorsInBounds examplePlatform openRequest ∧
    (openRequest.request = examplePlatform.DVDLowOpenPartition →
      assertionsPass examplePlatform openRequest) ∧
    ∃ s', IOCtlV examplePlatform
        { m_commands_to_execute := [0x2000], memory := exampleMemory, trace := [] } openRequest
      = some (s', IPCCommandResult.DefaultReply) :=
  ⟨by decide, by decide,
    (IOCtlV_independent_of_queue examplePlatform
      { m_commands_to_execute := [0x2000], memory := exampleMemory, trace := [] }
      openRequest).1 (by decide) (by decide)⟩

/-- A queue of two addresses saved and restored into a fresh device. -/
theorem DoState_round_trip_witness :
    [0, 0].length = [5, 6].length ∧
    ∃ stream,
      DoState { mode := PointerWrapMode.MODE_WRITE, stream := [] } [5, 6]
          { m_commands_to_execute := [0x1000, 0x2000], memory := exampleMemory, trace := [] }
        = some ({ mode := PointerWrapMode.MODE_WRITE, stream := stream }, [5, 6],
            { m_commands_to_execute := [0x1000, 0x2000], memory := exampleMemory,
              trace := [] }) ∧
      DoState { mode := PointerWrapMode.MODE_READ, stream := stream } [0, 0]
          (State.init exampleMemory)
        = some ({ mode := PointerWrapMode.MODE_READ, stream := [] }, [5, 6],
            { State.init exampleMemory with m_commands_to_execute := [0x1000, 0x2000] }) :=
  ⟨by decide,
    DoState_round_trip [5, 6] [0, 0]
      { m_commands_to_execute := [0x1000, 0x2000], memory := exampleMemory, trace := [] }
      (State.init exampleMemory) (by decide)⟩

/-- The request at 0x2000 submitted while the request at 0x1000 is active and
started when the latter completes, guest memory being left alone: the result
field at 0x1004 holds none of the bytes decoded for the request, and the call
issued is the one an immediate start would have issued. -/
theorem start_decodes_at_completion_witness :
    ([0x1000] : List Nat) ≠ [] ∧
    (run examplePlatform
        (IOCtl { m_commands_to_execute := [0x1000], memory := exampleMemory, trace := [] }
          (IOSIOCtlRequest.ofAddress examplePlatform exampleMemory 0x2000)).1
        []).m_commands_to_execute
      = 0x1000 :: (IOSIOCtlRequest.ofAddress examplePlatform exampleMemory 0x2000).address
          :: [] ∧
    (∀ x ∈ decodedBytes examplePlatform exampleMemory 0x2000,
      ¬ inResultField examplePlatform 0x1000 x) ∧
    executeCommandFor (SetReturnValue examplePlatform exampleMemory 0x1000 1)
        (IOSIOCtlRequest.ofAddress examplePlatform
          (SetReturnValue examplePlatform exampleMemory 0x1000 1) 0x2000)
      = executeCommandFor exampleMemory
          (IOSIOCtlRequest.ofAddress examplePlatform exampleMemory 0x2000) :=
  ⟨by decide, by decide, by decide,
    (start_decodes_at_completion examplePlatform
      { m_commands_to_execute := [0x1000], memory := exampleMemory, trace := [] }
      (IOSIOCtlRequest.ofAddress examplePlatform exampleMemory 0x2000) [] 0x1000 [] 1
      (by decide) (by decide)).2.2.2.1 (fun _ => rfl) (by decide) rfl⟩

/-- The request `openRequest`, whose buffer of 0x20 bytes holds the blob:
memory outside the output range and the result field is unchanged. -/
theorem blob_copy_sized_by_blob_witness :
    openRequest.request = examplePlatform.DVDLowOpenPartition ∧
    openRequest.in_vectors[0]? = some { address := 0x300, size := 8 } ∧
    (examplePlatform.debug = true → 3 ≤ openRequest.in_vectors.length) ∧
    openRequest.io_vectors[0]? = some { address := 0x400, size := 0x20 } ∧
    assertionsPass examplePlatform openRequest ∧
    ∃ s', IOCtlV examplePlatform (State.init exampleMemory) openRequest
        = some (s', IPCCommandResult.DefaultReply) ∧
      ∀ a, ¬ inVectors openRequest.io_vectors a →
        ¬ inResultField examplePlatform openRequest.address a →
        s'.memory a = (State.init exampleMemory).memory a := by
  refine ⟨by decide, by decide, by decide, by decide, by decide, ?_⟩
  obtain ⟨s', blob, h1, h2, -, h4⟩ :=
    (blob_copy_sized_by_blob examplePlatform (State.init exampleMemory) openRequest
      { address := 0x300, size := 8 } { address := 0x400, size := 0x20 }
      (by decide) (by decide) (by decide) (by decide) (by decide)).1
  have hb : blob = [0x10, 0xAB, 0xCD] := h2.trans (by decide)
  exact ⟨s', h1, h4 (by rw [hb]; decide)⟩

/-- The request `ticketRequest` has its four indexed descriptors and, with the
assertion prompts answered yes, completes with return value 1; a request with
another opcode and no descriptor at all completes too. -/
theorem IOCtlV_indexing_witness :
    (ticketRequest.request = examplePlatform.DVDLowOpenPartition ∧
      3 ≤ ticketRequest.in_vectors.length ∧ 1 ≤ ticketRequest.io_vectors.length ∧
      assertionsPass examplePlatform ticketRequest ∧
      ∃ s', IOCtlV examplePlatform (State.init exampleMemory) ticketRequest
          = some (s', IPCCommandResult.DefaultReply) ∧
        Read_U32 s'.memory (returnValueAddress examplePlatform ticketRequest.address) = 1) ∧
    ((0x12 : Nat) ≠ examplePlatform.DVDLowOpenPartition ∧
      ∃ s', IOCtlV examplePlatform (State.init exampleMemory)
          { address := 0x1000, request := 0x12, in_vectors := [], io_vectors := [] }
        = some (s', IPCCommandResult.DefaultReply) ∧
        Read_U32 s'.memory (returnValueAddress examplePlatform 0x1000)
          = toU32 examplePlatform.IPC_SUCCESS) :=
  ⟨⟨by decide, by decide, by decide, by decide,
      ((IOCtlV_indexing examplePlatform (State.init exampleMemory) ticketRequest).1
        (by decide) (by decide) (by decide)).2.2.2.2.2.mpr (by decide)⟩,
    ⟨by decide,
      ((IOCtlV_indexing examplePlatform (State.init exampleMemory)
        { address := 0x1000, request := 0x12, in_vectors := [], io_vectors := [] }).2
        (by decide)).2⟩⟩

end DI
